import Mathlib

/-!
Verification development for the Fitzpatrick clinical-trials map pipeline.

The Python sources embedded here are:
- the eligibility-criteria segmenter (parse_eligibility_criteria),
- the skin-type classifier (extract_and_standardize_scores),
- the study-detail aggregator (extract_study_details),
- the row assembler (process_raw_data),
- the geocoding planner with its query cache
  (geocode_locations_with_places_api).

Strings are modelled as lists of characters (ASCII assumed, matching the
inputs the pipeline processes); Python regular-expression matching for the
two fixed patterns of the classifier is implemented directly, following the
left-to-right, alternation-in-order, word-boundary semantics of Python re.
-/

namespace FitzCTG

/-! ## Character-level utilities modelling Python string operations -/

/-- Python str.strip whitespace set (and the characters matched by the
regex class backslash-s). -/
def isPySpace (c : Char) : Bool :=
  c = ' ' || c = '\t' || c = '\n' || c = '\r' || c = '\x0b' || c = '\x0c'

/-- A regex word character (ASCII): letter, digit or underscore. -/
def isWordChar (c : Char) : Bool :=
  c.isAlphanum || c = '_'

/-- Match a literal pattern at the head of the input, returning the rest. -/
def dropPre : List Char → List Char → Option (List Char)
  | [], cs => some cs
  | _ :: _, [] => none
  | p :: ps, c :: cs => if c = p then dropPre ps cs else none

/-- Python substring containment, the binary operator in. -/
def hasSub (p : List Char) : List Char → Bool
  | [] => (dropPre p []).isSome
  | c :: cs => (dropPre p (c :: cs)).isSome || hasSub p cs

/-- Python str.lower on the characters of a string. -/
def lowerData (s : String) : List Char :=
  s.data.map Char.toLower

/-- Python str.strip: remove leading and trailing whitespace. -/
def pyStrip (cs : List Char) : List Char :=
  ((cs.dropWhile isPySpace).reverse.dropWhile isPySpace).reverse

/-- Prepend a character onto the first block of a split result. -/
def consHead (c : Char) : List (List Char) → List (List Char)
  | [] => [[c]]
  | p :: ps => (c :: p) :: ps

/-- re.split on the character class of a dot or a newline. -/
def splitDots : List Char → List (List Char)
  | [] => [[]]
  | c :: cs => if c = '.' || c = '\n' then [] :: splitDots cs else consHead c (splitDots cs)

/-! ## The numeral patterns of the classifier

The classifier uses the pattern (word boundary)(vi|v|iv|iii|ii|i|l|[1-6])
(word boundary), and the range pattern built from two copies of it joined
by optional whitespace and one of the separators, a dash, the word to, or
the word through.  The text is lower-cased before matching, so only the
lower-case alternatives can occur. -/

/-- The alternatives of the numeral group, in the alternation order of the
source pattern. -/
def numAlts : List (List Char) :=
  [['v','i'], ['v'], ['i','v'], ['i','i','i'], ['i','i'], ['i'], ['l'],
   ['1'], ['2'], ['3'], ['4'], ['5'], ['6']]

/-- Word boundary after a matched token: the rest must not start with a
word character. -/
def boundaryAfter : List Char → Bool
  | [] => true
  | c :: _ => !isWordChar c

/-- Try the alternatives in order at the current position; an alternative
succeeds when it is a literal prefix and is followed by a word boundary. -/
def tryAlts : List (List Char) → List Char → Option (List Char × List Char)
  | [], _ => none
  | a :: as, cs =>
    match dropPre a cs with
    | some rest => if boundaryAfter rest then some (a, rest) else tryAlts as cs
    | none => tryAlts as cs

/-- Word boundary before the current position, given the previous
character (none at the start of the text): since every alternative starts
with a word character, the boundary requires the previous character to not
be a word character. -/
def prevOkB : Option Char → Bool
  | none => true
  | some p => !isWordChar p

/-- The last character of a matched token (tokens are never empty). -/
def tokLast (t : List Char) : Char :=
  t.getLastD 'v'

/-- re.findall scan of the numeral pattern: left to right, non-overlapping,
resuming after each match.  The fuel argument is one more than the number
of characters left and only enforces termination. -/
def scanNum : Nat → Option Char → List Char → List (List Char)
  | 0, _, _ => []
  | _ + 1, _, [] => []
  | fuel + 1, prev, c :: cs =>
    if prevOkB prev then
      match tryAlts numAlts (c :: cs) with
      | some (tok, rest) => tok :: scanNum fuel (some (tokLast tok)) rest
      | none => scanNum fuel (some c) cs
    else scanNum fuel (some c) cs

/-- All numeral tokens of a lower-cased text, as re.findall returns them. -/
def findNumerals (text : List Char) : List (List Char) :=
  scanNum (text.length + 1) none text

/-- Match the middle of the range pattern: optional whitespace, one of the
separators (a dash, to, through), optional whitespace, and the word
boundary before the second numeral.  Returns the position of the second
numeral.  Greedy whitespace consumption is equivalent to the regex here
because the separators and the numerals start with non-space characters,
and no separator is a prefix of another at the same position. -/
def sepAfter (cs : List Char) : Option (List Char) :=
  let cs1 := cs.dropWhile isPySpace
  let sepRes : Option (Char × List Char) :=
    match cs1 with
    | '-' :: r => some ('-', r)
    | _ =>
      match dropPre ['t','o'] cs1 with
      | some r => some ('o', r)
      | none =>
        match dropPre ['t','h','r','o','u','g','h'] cs1 with
        | some r => some ('h', r)
        | none => none
  match sepRes with
  | none => none
  | some (lastc, r) =>
    let pc := match r with
      | [] => lastc
      | c :: _ => if isPySpace c then ' ' else lastc
    if isWordChar pc then none else some (r.dropWhile isPySpace)

/-- Attempt the full range pattern at the current position, trying the
first-numeral alternatives in order and backtracking to the next
alternative when the rest of the pattern fails.  Returns the two captured
groups. -/
def rangeAtAux : List (List Char) → List Char → Option (List Char × List Char)
  | [], _ => none
  | a :: as, cs =>
    match dropPre a cs with
    | none => rangeAtAux as cs
    | some r1 =>
      if boundaryAfter r1 then
        match sepAfter r1 with
        | none => rangeAtAux as cs
        | some r2 =>
          match tryAlts numAlts r2 with
          | some (t2, _) => some (a, t2)
          | none => rangeAtAux as cs
      else rangeAtAux as cs

/-- Attempt the full range pattern at one position. -/
def rangeAt (cs : List Char) : Option (List Char × List Char) :=
  rangeAtAux numAlts cs

/-- re.search scan of the range pattern: try each start position from the
left, advancing one character on failure. -/
def rangeScan : Nat → Option Char → List Char → Option (List Char × List Char)
  | 0, _, _ => none
  | _ + 1, _, [] => none
  | fuel + 1, prev, c :: cs =>
    if prevOkB prev then
      match rangeAt (c :: cs) with
      | some g => some g
      | none => rangeScan fuel (some c) cs
    else rangeScan fuel (some c) cs

/-- re.search of the range pattern over a whole lower-cased text. -/
def rangeSearch (text : List Char) : Option (List Char × List Char) :=
  rangeScan (text.length + 1) none text

/-! ## Numeral conversion -/

/-- roman_map lookup on an upper-cased token. -/
def romanLookup : List Char → Option Nat
  | ['I'] => some 1
  | ['I','I'] => some 2
  | ['I','I','I'] => some 3
  | ['I','V'] => some 4
  | ['V'] => some 5
  | ['V','I'] => some 6
  | _ => none

/-- Value of a string of decimal digits. -/
def digitsToNat (t : List Char) : Nat :=
  t.foldl (fun acc c => acc * 10 + (c.toNat - '0'.toNat)) 0

/-- The helper _to_int of the classifier: the letter l means one, digit
strings convert as integers, otherwise look the token up as a Roman
numeral; none models the Python value None. -/
def tokToInt (t : List Char) : Option Nat :=
  let u := t.map Char.toUpper
  if u = ['L'] then some 1
  else if !t.isEmpty && t.all Char.isDigit then some (digitsToNat t)
  else romanLookup u

/-- to_roman_map lookup: the inverse Roman numeral of an integer one to
six. -/
def intToRoman : Nat → Option (List Char)
  | 1 => some ['I']
  | 2 => some ['I','I']
  | 3 => some ['I','I','I']
  | 4 => some ['I','V']
  | 5 => some ['V']
  | 6 => some ['V','I']
  | _ => none

/-! ## Sorted deduplication, modelling Python sorted(set(..)) -/

/-- Python sorted(list(set(l))): the distinct elements in ascending
order. -/
def sortedDedup (l : List Nat) : List Nat :=
  List.insertionSort (· ≤ ·) l.dedup

/-- The comma-space join of Python, applied to the Roman numeral tokens. -/
def joinComma : List (List Char) → List Char
  | [] => []
  | [x] => x
  | x :: xs => x ++ (',' :: ' ' :: joinComma xs)

/-! ## The classifier extract_and_standardize_scores -/

/-- The result dictionary of the classifier when the input is a string:
the extracted_score label and the six skin-type flags, in the key order of
the source. -/
structure ScoreResult where
  extracted_score : String
  Type_I : Nat
  Type_II : Nat
  Type_III : Nat
  Type_IV : Nat
  Type_V : Nat
  Type_VI : Nat
  deriving DecidableEq

/-- The initial result dictionary: label Not Specified, all flags zero. -/
def baseResult : ScoreResult :=
  ⟨"Not Specified", 0, 0, 0, 0, 0, 0⟩

/-- Set the flag of one skin type; integers outside one to six set
nothing, matching the membership test on to_roman_map in the source. -/
def setFlag (r : ScoreResult) : Nat → ScoreResult
  | 1 => { r with Type_I := 1 }
  | 2 => { r with Type_II := 1 }
  | 3 => { r with Type_III := 1 }
  | 4 => { r with Type_IV := 1 }
  | 5 => { r with Type_V := 1 }
  | 6 => { r with Type_VI := 1 }
  | _ => r

/-- The valid-range branch: set every flag in the inclusive range and
build the dashed label (absent Roman numerals default to the empty
string, as dict get with a default does). -/
def rangeResult (a b : Nat) : ScoreResult :=
  let r := (List.range' a (b + 1 - a)).foldl setFlag baseResult
  { r with extracted_score :=
      String.mk ((intToRoman a).getD [] ++ ('-' :: (intToRoman b).getD [])) }

/-- One step of the enumeration loop: set the flag and append the Roman
numeral when the integer has one. -/
def enumStep (acc : ScoreResult × List (List Char)) (score : Nat) :
    ScoreResult × List (List Char) :=
  match intToRoman score with
  | some rv => (setFlag acc.1 score, acc.2 ++ [rv])
  | none => acc

/-- The enumeration branch over the sorted deduplicated scores. -/
def enumResult (scores : List Nat) : ScoreResult :=
  let p := scores.foldl enumStep (baseResult, [])
  if p.2.isEmpty then p.1
  else { p.1 with extracted_score := String.mk (joinComma p.2) }

/-- A Python value passed to the classifier: either a string or some
non-string value (the tag distinguishes different non-string inputs). -/
inductive PyObj where
  | str (s : String)
  | nonStr (tag : Nat)
  deriving DecidableEq

/-- The classifier returns the empty dictionary on non-string input and a
full result dictionary on string input. -/
inductive ScoreOutput where
  | empty
  | result (r : ScoreResult)
  deriving DecidableEq

/-- The classifier: veto on a disqualifying term, the all-or-any branch,
then the range pattern, and only when the range pattern does not match at
all, the enumeration of standalone numerals. -/
def extract_and_standardize_scores (sentence : PyObj) : ScoreOutput :=
  match sentence with
  | .nonStr _ => .empty
  | .str s =>
    let text := lowerData s
    if hasSub ['w','r','i','n','k','l','e'] text then
      .result { baseResult with extracted_score := "Not a Skin Type Score" }
    else if hasSub ['a','l','l'] text || hasSub ['a','n','y'] text then
      .result ⟨"All", 1, 1, 1, 1, 1, 1⟩
    else
      match rangeSearch text with
      | some (t1, t2) =>
        match tokToInt t1, tokToInt t2 with
        | some a, some b =>
          if a < b then .result (rangeResult a b) else .result baseResult
        | _, _ => .result baseResult
      | none =>
        .result (enumResult (sortedDedup ((findNumerals text).filterMap tokToInt)))

/-! ## The criteria segmenter parse_eligibility_criteria -/

/-- The literal split pattern of the segmenter. -/
def exclPat : List Char := ['e','x','c','l','u','s','i','o','n']

/-- Case-insensitive literal prefix match (the pattern is lower case). -/
def isPreCI : List Char → List Char → Option (List Char)
  | [], cs => some cs
  | _ :: _, [] => none
  | p :: ps, c :: cs => if c.toLower = p then isPreCI ps cs else none

/-- re.split on the word exclusion, case-insensitive: cut at every
non-overlapping occurrence, scanning left to right.  The fuel argument is
one more than the number of characters left. -/
def splitExcl : Nat → List Char → List (List Char)
  | 0, _ => [[]]
  | _ + 1, [] => [[]]
  | fuel + 1, c :: cs =>
    match isPreCI exclPat (c :: cs) with
    | some rest => [] :: splitExcl fuel rest
    | none => consHead c (splitExcl fuel cs)

/-- All parts of the text around occurrences of the split pattern. -/
def splitExclusion (text : List Char) : List (List Char) :=
  splitExcl (text.length + 1) text

/-- One sentence found by the segmenter. -/
structure EligSentence where
  sentence : String
  is_exclusion : Bool
  deriving DecidableEq

/-- Retain the keyword-containing, non-empty-after-strip sentences of one
segment, splitting on dots and newlines. -/
def keepSentences (kw : List Char) (isExcl : Bool) (part : List Char) :
    List EligSentence :=
  (splitDots part).filterMap fun sentence =>
    if hasSub kw (sentence.map Char.toLower) && !(pyStrip sentence).isEmpty then
      some ⟨String.mk (pyStrip sentence), isExcl⟩
    else none

/-- The segmenter on an eligibility-criteria text: empty text yields no
sentences; otherwise the part before the first occurrence of the split
pattern is the inclusion segment and the part directly after it (up to the
next occurrence, when there is one) is the exclusion segment. -/
def parseCriteriaText (text : String) (keyword : String) : List EligSentence :=
  if text = "" then []
  else
    let parts := splitExclusion text.data
    let segs : List (List Char × Bool) := [(parts.headD [], false), (parts.getD 1 [], true)]
    segs.flatMap fun pb =>
      if pb.1.isEmpty then [] else keepSentences keyword.data pb.2 pb.1

/-! ## Study records

The nested JSON study record is embedded as a structure; dictionary levels
only read with an empty-dictionary default are flattened into their used
fields, and an absent-or-falsy dictionary is modelled as none. -/

/-- A cell value of the assembled table: string, number, or missing
(NaN / Python None). -/
inductive Value where
  | vstr (s : String)
  | vnum (n : Int)
  | vnull
  deriving DecidableEq

/-- A raw race measurement value: a JSON number or a JSON string. -/
inductive MVal where
  | num (n : Int)
  | str (s : String)
  deriving DecidableEq

/-- One measurement of a race category; the value key may be absent. -/
structure MeasurementJ where
  value : Option MVal
  deriving DecidableEq

/-- One category of the race measure. -/
structure CategoryJ where
  title : Option String
  measurements : List MeasurementJ
  deriving DecidableEq

/-- One class of a baseline measure. -/
structure ClassJ where
  categories : List CategoryJ
  deriving DecidableEq

/-- One baseline measure; classes is none when the key is absent. -/
structure MeasureJ where
  title : Option String
  classes : Option (List ClassJ)
  deriving DecidableEq

/-- A geoPoint with possibly-absent coordinates. -/
structure GeoPointJ where
  lat : Value
  lon : Value
  deriving DecidableEq

/-- One location entry of a study. -/
structure LocationJ where
  country : Option String
  facility : Option String
  city : Option String
  state : Option String
  zip : Option String
  geoPoint : Option GeoPointJ
  deriving DecidableEq

/-- The enrollmentInfo block (none when absent or falsy). -/
structure EnrollmentInfoJ where
  count : Option Int
  enrollmentType : Option String
  deriving DecidableEq

/-- The protocolSection of a study, flattened to the fields the pipeline
reads: identificationModule.nctId, statusModule.overallStatus,
statusModule.lastUpdatePostDateStruct.date, designModule.enrollmentInfo,
contactsLocationsModule.locations,
eligibilityModule.eligibilityCriteria. -/
structure ProtocolJ where
  nctId : Option String
  overallStatus : Option String
  lastUpdatePostDate : Option String
  enrollmentInfo : Option EnrollmentInfoJ
  locations : List LocationJ
  eligibilityCriteria : Option String
  deriving DecidableEq

/-- One raw study record; resultsMeasures flattens
resultsSection.baselineCharacteristicsModule.measures, with none for an
absent-or-falsy resultsSection. -/
structure StudyJ where
  protocolSection : Option ProtocolJ
  resultsMeasures : Option (List MeasureJ)
  deriving DecidableEq

/-- The segmenter as called on a study record: the eligibility text is
read with empty-string defaults at every level. -/
def parse_eligibility_criteria (study : StudyJ) (keyword : String) :
    List EligSentence :=
  parseCriteriaText ((study.protocolSection.bind (·.eligibilityCriteria)).getD "") keyword

/-! ## The aggregator extract_study_details -/

/-- Python int applied to a string: strip whitespace, optional sign, then
decimal digits; none models the ValueError raised otherwise. -/
def parseIntStr (cs : List Char) : Option Int :=
  match pyStrip cs with
  | '-' :: ds => if !ds.isEmpty && ds.all Char.isDigit then some (-(digitsToNat ds : Int)) else none
  | '+' :: ds => if !ds.isEmpty && ds.all Char.isDigit then some ((digitsToNat ds : Int)) else none
  | ds => if !ds.isEmpty && ds.all Char.isDigit then some ((digitsToNat ds : Int)) else none

/-- Python int applied to a measurement value. -/
def pyInt : MVal → Option Int
  | .num n => some n
  | .str s => parseIntStr s.data

/-- Python dictionary assignment: overwrite the key when present,
otherwise append. -/
def dictInsert (k : String) (v : Int) : List (String × Int) → List (String × Int)
  | [] => [(k, v)]
  | (k', v') :: rest => if k' = k then (k, v) :: rest else (k', v') :: dictInsert k v rest

/-- The key derivation of the race data: spaces replaced by
underscores. -/
def underscoreSpaces (s : String) : String :=
  String.mk (s.data.map fun c => if c = ' ' then '_' else c)

/-- Process one race category: skip categories with an absent or empty
title; sum the measurement values through Python int with a missing value
defaulting to the integer zero.  A non-numeric value raises, modelled by
none. -/
def raceFromCategory (acc : List (String × Int)) (cat : CategoryJ) :
    Option (List (String × Int)) :=
  match cat.title with
  | some t =>
    if t = "" then some acc
    else
      match cat.measurements.foldlM
          (fun (s : Int) m => (pyInt (m.value.getD (.num 0))).map (s + ·)) 0 with
      | some total => some (dictInsert ("Race_" ++ underscoreSpaces t) total acc)
      | none => none
  | none => some acc

/-- Process one baseline measure: only the race measure contributes; the
classes key defaults to a list holding one empty class, but indexing a
present-but-empty classes list raises, modelled by none. -/
def raceFromMeasure (acc : List (String × Int)) (m : MeasureJ) :
    Option (List (String × Int)) :=
  if m.title = some "Race (NIH/OMB)" then
    match m.classes with
    | none => some acc
    | some [] => none
    | some (c :: _) => c.categories.foldlM raceFromCategory acc
  else some acc

/-- The race-demographics loop over the baseline measures of a study:
none models a raised exception. -/
def studyRace (study : StudyJ) : Option (List (String × Int)) :=
  match study.resultsMeasures with
  | none => some []
  | some measures => measures.foldlM raceFromMeasure []

/-- One facility row extracted from a location. -/
structure FacilityJ where
  facility : String
  city : String
  state : String
  zip : String
  latitude : Value
  longitude : Value
  deriving DecidableEq

/-- The details dictionary returned by the aggregator. -/
structure DetailsJ where
  status : String
  us_facilities : List FacilityJ
  enrollment : Value
  enrollment_type : String
  race_data : List (String × Int)
  last_update_year : String
  deriving DecidableEq

/-- The aggregator: status, last-update year, enrollment, the facilities
of the target country that already carry a geoPoint, and the race
demographics.  The result is none exactly when the race extraction
raises. -/
def extract_study_details (study : StudyJ) (country : String) : Option DetailsJ :=
  match study.protocolSection with
  | none => some ⟨"N/A", [], .vstr "N/A", "N/A", [], "N/A"⟩
  | some protocol =>
    let status := protocol.overallStatus.getD "N/A"
    let yr :=
      match protocol.lastUpdatePostDate with
      | some d => if d ≠ "" && 4 ≤ d.length then String.mk (d.data.take 4) else "N/A"
      | none => "N/A"
    let enrPair : Value × String :=
      match protocol.enrollmentInfo with
      | some ei =>
        match ei.count with
        | some n => (.vnum n, ei.enrollmentType.getD "N/A")
        | none => (.vstr "N/A", "N/A")
      | none => (.vstr "N/A", "N/A")
    let facs := protocol.locations.filterMap fun loc =>
      if loc.country == some country && loc.geoPoint.isSome then
        some ⟨loc.facility.getD "N/A", loc.city.getD "N/A", loc.state.getD "N/A",
              loc.zip.getD "N/A",
              (loc.geoPoint.map (·.lat)).getD .vnull, (loc.geoPoint.map (·.lon)).getD .vnull⟩
      else none
    match studyRace study with
    | none => none
    | some rd => some ⟨status, facs, enrPair.1, enrPair.2, rd, yr⟩

/-! ## The row assembler process_raw_data -/

/-- One assembled facility-level row: study metadata, the classifier
output, one facility, and the race data. -/
structure ARow where
  nctId : String
  status : String
  enrollment : Value
  enrollment_type : String
  last_update_year : String
  extracted_score : String
  Type_I : Nat
  Type_II : Nat
  Type_III : Nat
  Type_IV : Nat
  Type_V : Nat
  Type_VI : Nat
  facility : String
  city : String
  state : String
  zip : String
  latitude : Value
  longitude : Value
  race_data : List (String × Int)
  deriving DecidableEq

/-- The rows a single study contributes: classify the first inclusion
sentence; a disqualified study or one with no inclusion sentence
contributes nothing; otherwise one row per facility. -/
def studyRows (study : StudyJ) (details : DetailsJ) (nct : String) : List ARow :=
  let incl := (parse_eligibility_criteria study "fitzpatrick").filterMap
    fun s => if s.is_exclusion then none else some s.sentence
  match incl with
  | [] => []
  | s0 :: _ =>
    match extract_and_standardize_scores (.str s0) with
    | .empty => []
    | .result sc =>
      if sc.extracted_score = "Not a Skin Type Score" then []
      else
        details.us_facilities.map fun fac =>
          ⟨nct, details.status, details.enrollment, details.enrollment_type,
           details.last_update_year, sc.extracted_score,
           sc.Type_I, sc.Type_II, sc.Type_III, sc.Type_IV, sc.Type_V, sc.Type_VI,
           fac.facility, fac.city, fac.state, fac.zip, fac.latitude, fac.longitude,
           details.race_data⟩

/-- Process one study in the main loop, accumulating rows and the set of
race keys seen; studies with no qualifying facility are skipped before
their race keys are recorded.  none propagates an aggregator fault. -/
def collectStudy (acc : List ARow × List String) (study : StudyJ) :
    Option (List ARow × List String) :=
  let nct := (study.protocolSection.bind (·.nctId)).getD "N/A"
  match extract_study_details study "United States" with
  | none => none
  | some details =>
    if details.us_facilities.isEmpty then some acc
    else
      let newKeys := (details.race_data.map (·.1)).filter fun k => !acc.2.contains k
      some (acc.1 ++ studyRows study details nct, acc.2 ++ newKeys)

/-- The assembly loop over all studies. -/
def assembleAll (studies : List StudyJ) : Option (List ARow × List String) :=
  studies.foldlM collectStudy ([], [])

/-- fillna with zero on one cell. -/
def fillV : Value → Value
  | .vnull => .vnum 0
  | v => v

/-- The race count of a row under one column, zero when absent. -/
def lookupRace (rd : List (String × Int)) (k : String) : Int :=
  (List.lookup k rd).getD 0

/-- The full set of race columns of the final table: keys appearing in
the rows, then any recorded key with no column yet. -/
def unionKeys (rows : List ARow) (extra : List String) : List String :=
  let fromRows := (rows.flatMap fun r => r.race_data.map (·.1)).dedup
  fromRows ++ extra.filter fun k => !fromRows.contains k

/-- Zero-fill the race columns of a row and apply fillna to its
coordinates. -/
def fillRow (allKeys : List String) (r : ARow) : ARow :=
  { r with
    race_data := allKeys.map fun k => (k, lookupRace r.race_data k),
    latitude := fillV r.latitude,
    longitude := fillV r.longitude }

/-- Sum of the six skin-type flags of a row. -/
def flagSum (r : ARow) : Nat :=
  r.Type_I + r.Type_II + r.Type_III + r.Type_IV + r.Type_V + r.Type_VI

/-- The full processing stage: assemble, zero-fill, then drop the rows
whose flags sum to zero — but only when at least one row survives the
drop. -/
def process_raw_data (studies : List StudyJ) : Option (List ARow) :=
  match assembleAll studies with
  | none => none
  | some (rows, keys) =>
    if rows.isEmpty then some []
    else
      let filled := rows.map (fillRow (unionKeys rows keys))
      let kept := filled.filter fun r => flagSum r != 0
      if !kept.isEmpty then some kept else some filled

/-! ## The geocoding planner geocode_locations_with_places_api -/

/-- Python str applied to a cell, as astype(str) does columnwise: a NaN
cell prints as nan. -/
def pyStr : Value → String
  | .vstr s => s
  | .vnum n => toString n
  | .vnull => "nan"

/-- Suffix test on character lists. -/
def listEndsWith (suffix cs : List Char) : Bool :=
  (dropPre suffix.reverse cs.reverse).isSome

/-- The facility name, lower-cased, ends with the word site. -/
def endsWithSite (s : String) : Bool :=
  listEndsWith ['s','i','t','e'] (lowerData s)

/-- The facility name ends with one or more digits (the regex digits
anchored at the end). -/
def endsWithDigit (s : String) : Bool :=
  match s.data.reverse with
  | c :: _ => c.isDigit
  | [] => false

/-- The facility name starts with the bad-prefix literal. -/
def startsCallSuneva (s : String) : Bool :=
  (dropPre "Call Suneva".data s.data).isSome

/-- The fatal-flaw test of the planner on the stringified facility and
zip. -/
def fatalFlaw (facility zip : String) : Bool :=
  (facility = "N/A" || facility = "nan") ||
  startsCallSuneva facility ||
  (zip = "00000") ||
  endsWithSite facility ||
  endsWithDigit facility

/-- The bad-zip test of the planner. -/
def badZip (zip : String) : Bool :=
  zip = "N/A" || zip = "nan"

/-- The search query of one row: the SKIP sentinel for fatally flawed
rows, otherwise the comma-joined address with the zip omitted entirely
when bad. -/
def mkSearchQuery (facility city state zip : String) : String :=
  if fatalFlaw facility zip then "SKIP"
  else if badZip zip then facility ++ ", " ++ city ++ ", " ++ state
  else facility ++ ", " ++ city ++ ", " ++ state ++ " " ++ zip

/-- One input row of the geocoding stage; extra holds every column other
than the six the stage reads or writes. -/
structure InRow where
  facility : Value
  city : Value
  state : Value
  zip : Value
  latitude : Value
  longitude : Value
  extra : List (String × Value)
  deriving DecidableEq

/-- One row of the returned frame: the four address columns have been
cast to strings, and the search_query and place_name columns added. -/
structure GRow where
  facility : Value
  city : Value
  state : Value
  zip : Value
  latitude : Value
  longitude : Value
  search_query : String
  place_name : String
  extra : List (String × Value)
  deriving DecidableEq

/-- The query-preparation phase: cast the address columns to strings,
compute the search query, and initialise the place_name column to the
empty string. -/
def prepareRow (r : InRow) : GRow :=
  let f := pyStr r.facility
  let c := pyStr r.city
  let st := pyStr r.state
  let z := pyStr r.zip
  ⟨.vstr f, .vstr c, .vstr st, .vstr z, r.latitude, r.longitude,
   mkSearchQuery f c st z, "", r.extra⟩

/-- One candidate returned by the places lookup. -/
structure Place where
  name : String
  lat : Value
  lng : Value
  deriving DecidableEq

/-- The outcome of one external call: a result list, or a raised
network/API error. -/
inductive ApiResult where
  | ok (places : List Place)
  | exn
  deriving DecidableEq

/-- Write a lookup result back into the originating row: the first place
on a non-empty result list, the no-results sentinel otherwise. -/
def applyRes (row : GRow) : Option (List Place) → GRow
  | some (p :: _) =>
    { row with latitude := p.lat, longitude := p.lng, place_name := p.name }
  | _ => { row with place_name := "NO_RESULTS_FOUND" }

/-- The state after running the geocoding loop: the processed rows, the
query cache, and the log of external calls in order. -/
structure GeoRun where
  rows : List GRow
  cache : List (String × Option (List Place))
  calls : List String

/-- The geocoding loop: skip sentinel rows; for each workable row consult
the cache first, make the external call only on a miss, and store the
outcome — a raised error is stored as none and leaves the row untouched. -/
def geoLoop (api : String → ApiResult) :
    List GRow → List (String × Option (List Place)) → List String → GeoRun
  | [], cache, calls => ⟨[], cache, calls⟩
  | row :: rest, cache, calls =>
    if row.search_query = "SKIP" then
      let r := geoLoop api rest cache calls
      ⟨row :: r.rows, r.cache, r.calls⟩
    else
      match List.lookup row.search_query cache with
      | some result =>
        let r := geoLoop api rest cache calls
        ⟨applyRes row result :: r.rows, r.cache, r.calls⟩
      | none =>
        match api row.search_query with
        | .exn =>
          let r := geoLoop api rest ((row.search_query, none) :: cache)
            (calls ++ [row.search_query])
          ⟨row :: r.rows, r.cache, r.calls⟩
        | .ok places =>
          let r := geoLoop api rest ((row.search_query, some places) :: cache)
            (calls ++ [row.search_query])
          ⟨applyRes row (some places) :: r.rows, r.cache, r.calls⟩

/-- Run the whole geocoding stage, keeping the final cache and call
log. -/
def geoRunOf (api : String → ApiResult) (df : List InRow) : GeoRun :=
  geoLoop api (df.map prepareRow) [] []

/-- The geocoding stage as the pipeline calls it: the returned frame. -/
def geocode_locations_with_places_api (api : String → ApiResult) (df : List InRow) :
    List GRow :=
  (geoRunOf api df).rows

/-! ## Derived observers and specification-side definitions -/

/-- The flag of one skin type read off a classifier result. -/
def flagOf (r : ScoreResult) : Nat → Nat
  | 1 => r.Type_I
  | 2 => r.Type_II
  | 3 => r.Type_III
  | 4 => r.Type_IV
  | 5 => r.Type_V
  | 6 => r.Type_VI
  | _ => 0

/-- Modelled from the spec: split the text at the first case-insensitive
occurrence of the literal word exclusion, returning the before segment and
(when the word occurs) the whole text after that first occurrence.  The
fuel argument is one more than the number of characters left. -/
def splitFirstCI : Nat → List Char → List Char × Option (List Char)
  | 0, _ => ([], none)
  | _ + 1, [] => ([], none)
  | fuel + 1, c :: cs =>
    match isPreCI exclPat (c :: cs) with
    | some rest => ([], some rest)
    | none =>
      let p := splitFirstCI fuel cs
      (c :: p.1, p.2)

/-- Modelled from the spec: the before segment and the optional after
segment at the first occurrence of the word exclusion. -/
def specSplitFirst (text : List Char) : List Char × Option (List Char) :=
  splitFirstCI (text.length + 1) text

/-- The distinct-or-not list of search queries of the workable rows, in
row order (the rows the loop iterates over). -/
def workQueries (df : List InRow) : List String :=
  ((df.map prepareRow).map (·.search_query)).filter fun q => !(q == "SKIP")

/-- One measurement value converts through Python int without raising
(missing values default to the integer zero). -/
def valOk (m : MeasurementJ) : Bool :=
  (pyInt (m.value.getD (.num 0))).isSome

/-- Every measurement of a category converts without raising. -/
def catOk (cat : CategoryJ) : Bool :=
  cat.measurements.all valOk

/-- A category either is skipped (absent or empty title) or converts
without raising. -/
def catTitleOk (cat : CategoryJ) : Bool :=
  match cat.title with
  | some t => if t = "" then true else catOk cat
  | none => true

/-- A measure either is not the race measure, or its first class's
categories all convert and its classes list is not present-but-empty. -/
def measureOk (m : MeasureJ) : Bool :=
  if m.title = some "Race (NIH/OMB)" then
    match m.classes with
    | none => true
    | some [] => false
    | some (c :: _) => c.categories.all catTitleOk
  else true

/-- Every race-measure category of a study converts without raising, and
no race measure carries a present-but-empty classes list. -/
def studyRaceOk (study : StudyJ) : Bool :=
  match study.resultsMeasures with
  | none => true
  | some measures => measures.all measureOk

/-- Modelled from the spec: the sum of the measurement values of a
category with non-numeric or missing values treated as zero. -/
def specRaceSum (cat : CategoryJ) : Int :=
  (cat.measurements.map fun m =>
    match m.value with
    | none => 0
    | some v => (pyInt v).getD 0).sum

/-! ## Concrete records used by the counterexamples and witnesses -/

/-- A study whose only keyword sentence yields no numeral: one qualifying
facility, eligibility text with the keyword but no skin type.  Fields:
nctId, overallStatus, lastUpdatePostDate, enrollmentInfo, locations,
eligibilityCriteria. -/
def c1Study : StudyJ :=
  ⟨some ⟨some "NCT0001", some "RECRUITING", some "2024-01-02", none,
    [⟨some "United States", some "Main Clinic", some "Boston", some "MA",
      some "02115", some ⟨.vnum 42, .vnum (-71)⟩⟩],
    some "fitzpatrick skin."⟩, none⟩

/-- A study with a parse-able range sentence, used to exercise the
successful drop path. -/
def c1bStudy : StudyJ :=
  ⟨some ⟨some "NCT0002", some "COMPLETED", some "2023-07-01", none,
    [⟨some "United States", some "West Clinic", some "Denver", some "CO",
      some "80ced", some ⟨.vnum 39, .vnum (-104)⟩⟩],
    some "fitzpatrick skin type ii to iv."⟩, none⟩

/-- The assembled rows and race keys of the single-study run above. -/
def c1bAcc : List ARow × List String :=
  (assembleAll [c1bStudy]).getD ([], [])

/-- A race category whose measurement value is a non-numeric string. -/
def c7badCat : CategoryJ :=
  ⟨some "White", [⟨some (.str "NA")⟩]⟩

/-- A study carrying a race measure with a non-numeric measurement
value. -/
def c7Study : StudyJ :=
  ⟨some ⟨some "NCT0003", none, none, none,
    [⟨some "United States", some "East Clinic", some "Miami", some "FL",
      some "33101", some ⟨.vnum 25, .vnum (-80)⟩⟩],
    some "fitzpatrick i-ii."⟩,
   some [⟨some "Race (NIH/OMB)", some [⟨[c7badCat]⟩]⟩]⟩

/-- A race category whose measurement values all convert: a number, a
missing value, and a numeric string. -/
def c7okCat : CategoryJ :=
  ⟨some "Black or African American", [⟨some (.num 3)⟩, ⟨none⟩, ⟨some (.str "4")⟩]⟩

/-- A study whose race measure converts without raising. -/
def c7okStudy : StudyJ :=
  ⟨some ⟨some "NCT0004", none, none, none,
    [⟨some "United States", some "North Clinic", some "Seattle", some "WA",
      some "98101", some ⟨.vnum 47, .vnum (-122)⟩⟩],
    some "fitzpatrick i-ii."⟩,
   some [⟨some "Race (NIH/OMB)", some [⟨[c7okCat]⟩]⟩]⟩

/-- An input row with a numeric zip cell, exercising the string cast of
the geocoding stage.  Fields: facility, city, state, zip, latitude,
longitude, extra. -/
def c8row : InRow :=
  ⟨.vstr "Main Clinic", .vstr "Boston", .vstr "MA", .vnum 0, .vnull, .vnull, []⟩

/-- An input row whose query is workable, with a string zip. -/
def c6inRow : InRow :=
  ⟨.vstr "Main Clinic", .vstr "Boston", .vstr "MA", .vstr "02115",
   .vnull, .vnull, [("nctId", .vstr "NCT0001")]⟩

/-- The prepared form of the workable row above. -/
def c6row : GRow :=
  ⟨.vstr "Main Clinic", .vstr "Boston", .vstr "MA", .vstr "02115",
   .vnull, .vnull, "Main Clinic, Boston, MA 02115", "", [("nctId", .vstr "NCT0001")]⟩

/-- An external service that always raises. -/
def apiFail : String → ApiResult := fun _ => .exn

/-! ## Basic evaluations: the test vectors of the specification -/

example :
    extract_and_standardize_scores (.str "Fitzpatrick skin type II to IV") =
      .result ⟨"II-IV", 0, 1, 1, 1, 0, 0⟩ := by decide

example :
    extract_and_standardize_scores (.str "fitzpatrick iv to ii") =
      .result ⟨"Not Specified", 0, 0, 0, 0, 0, 0⟩ := by decide

example :
    extract_and_standardize_scores (.str "types i, iii, and v") =
      .result ⟨"I, III, V", 1, 0, 1, 0, 1, 0⟩ := by decide

example :
    extract_and_standardize_scores (.str "reduce wrinkle depth in types i-iv") =
      .result ⟨"Not a Skin Type Score", 0, 0, 0, 0, 0, 0⟩ := by decide

example :
    extract_and_standardize_scores (.str "smallpox") =
      .result ⟨"All", 1, 1, 1, 1, 1, 1⟩ := by decide

example :
    parseCriteriaText "Include: fitzpatrick I-III. Exclusion: fitzpatrick IV-VI." "fitzpatrick" =
      [⟨"Include: fitzpatrick I-III", false⟩, ⟨": fitzpatrick IV-VI", true⟩] := by decide

/-! ## Lemmas about the numeral scanners -/

theorem tryAlts_mem (alts : List (List Char)) (cs t r : List Char)
    (h : tryAlts alts cs = some (t, r)) : t ∈ alts := by
  induction alts generalizing cs with
  | nil => simp [tryAlts] at h
  | cons a as ih =>
    unfold tryAlts at h
    cases hd : dropPre a cs with
    | some rest =>
      simp only [hd] at h
      by_cases hb : boundaryAfter rest = true
      · rw [if_pos hb] at h
        obtain ⟨rfl, rfl⟩ : a = t ∧ rest = r := by simpa using h
        exact List.mem_cons_self _ _
      · rw [if_neg hb] at h
        exact List.mem_cons_of_mem _ (ih _ h)
    | none =>
      simp only [hd] at h
      exact List.mem_cons_of_mem _ (ih _ h)

theorem scanNum_mem (fuel : Nat) (prev : Option Char) (cs t : List Char)
    (h : t ∈ scanNum fuel prev cs) : t ∈ numAlts := by
  induction fuel generalizing prev cs with
  | zero => simp [scanNum] at h
  | succ f ih =>
    cases cs with
    | nil => simp [scanNum] at h
    | cons c cs' =>
      unfold scanNum at h
      by_cases hp : prevOkB prev = true
      · rw [if_pos hp] at h
        cases heq : tryAlts numAlts (c :: cs') with
        | some pr =>
          obtain ⟨tok, rest⟩ := pr
          simp only [heq] at h
          rcases List.mem_cons.mp h with h1 | h1
          · exact h1 ▸ tryAlts_mem _ _ _ _ heq
          · exact ih _ _ h1
        | none =>
          simp only [heq] at h
          exact ih _ _ h
      · rw [if_neg hp] at h
        exact ih _ _ h

theorem findNumerals_mem (text t : List Char) (h : t ∈ findNumerals text) :
    t ∈ numAlts :=
  scanNum_mem _ _ _ _ h

theorem rangeAtAux_mem (alts : List (List Char)) (cs t1 t2 : List Char)
    (h : rangeAtAux alts cs = some (t1, t2)) : t1 ∈ alts ∧ t2 ∈ numAlts := by
  induction alts generalizing cs with
  | nil => simp [rangeAtAux] at h
  | cons a as ih =>
    unfold rangeAtAux at h
    cases hd : dropPre a cs with
    | none =>
      simp only [hd] at h
      exact ⟨List.mem_cons_of_mem _ (ih _ h).1, (ih _ h).2⟩
    | some r1 =>
      simp only [hd] at h
      by_cases hb : boundaryAfter r1 = true
      · rw [if_pos hb] at h
        cases hs : sepAfter r1 with
        | none =>
          simp only [hs] at h
          exact ⟨List.mem_cons_of_mem _ (ih _ h).1, (ih _ h).2⟩
        | some r2 =>
          simp only [hs] at h
          cases ht : tryAlts numAlts r2 with
          | none =>
            simp only [ht] at h
            exact ⟨List.mem_cons_of_mem _ (ih _ h).1, (ih _ h).2⟩
          | some pr =>
            obtain ⟨t2', r3⟩ := pr
            simp only [ht] at h
            obtain ⟨rfl, rfl⟩ : a = t1 ∧ t2' = t2 := by simpa using h
            exact ⟨List.mem_cons_self _ _, tryAlts_mem _ _ _ _ ht⟩
      · rw [if_neg hb] at h
        exact ⟨List.mem_cons_of_mem _ (ih _ h).1, (ih _ h).2⟩

theorem rangeScan_mem (fuel : Nat) (prev : Option Char) (cs t1 t2 : List Char)
    (h : rangeScan fuel prev cs = some (t1, t2)) : t1 ∈ numAlts ∧ t2 ∈ numAlts := by
  induction fuel generalizing prev cs with
  | zero => simp [rangeScan] at h
  | succ f ih =>
    cases cs with
    | nil => simp [rangeScan] at h
    | cons c cs' =>
      unfold rangeScan at h
      by_cases hp : prevOkB prev = true
      · rw [if_pos hp] at h
        cases heq : rangeAt (c :: cs') with
        | some g =>
          simp only [heq] at h
          obtain rfl : g = (t1, t2) := by simpa using h
          exact rangeAtAux_mem _ _ _ _ heq
        | none =>
          simp only [heq] at h
          exact ih _ _ h
      · rw [if_neg hp] at h
        exact ih _ _ h

theorem rangeSearch_mem (text t1 t2 : List Char)
    (h : rangeSearch text = some (t1, t2)) : t1 ∈ numAlts ∧ t2 ∈ numAlts :=
  rangeScan_mem _ _ _ _ _ h

/-- Every alternative of the numeral group converts to an integer between
one and six. -/
theorem tokToInt_of_mem : ∀ t ∈ numAlts,
    (tokToInt t).isSome = true ∧ 1 ≤ (tokToInt t).getD 0 ∧ (tokToInt t).getD 0 ≤ 6 := by
  decide

/-! ## Lemmas about the Roman labels -/

theorem intToRoman_headIV (k : Nat) (rv : List Char) (h : intToRoman k = some rv) :
    ∃ c cs, rv = c :: cs ∧ (c = 'I' ∨ c = 'V') := by
  rcases k with _ | _ | _ | _ | _ | _ | _ | k <;> simp [intToRoman] at h <;> subst h
  · exact ⟨'I', [], rfl, Or.inl rfl⟩
  · exact ⟨'I', ['I'], rfl, Or.inl rfl⟩
  · exact ⟨'I', ['I', 'I'], rfl, Or.inl rfl⟩
  · exact ⟨'I', ['V'], rfl, Or.inl rfl⟩
  · exact ⟨'V', [], rfl, Or.inr rfl⟩
  · exact ⟨'V', ['I'], rfl, Or.inr rfl⟩

theorem intToRoman_none (k : Nat) (h : intToRoman k = none) : k = 0 ∨ 7 ≤ k := by
  rcases k with _ | _ | _ | _ | _ | _ | _ | k <;> simp [intToRoman] at h <;> omega

theorem joinComma_head (c : Char) (cs : List Char) (rest : List (List Char)) :
    ∃ t, joinComma ((c :: cs) :: rest) = c :: t := by
  cases rest with
  | nil => exact ⟨cs, rfl⟩
  | cons x xs => exact ⟨cs ++ ',' :: ' ' :: joinComma (x :: xs), rfl⟩

/-! ## Lemmas about the flag-setting folds -/

theorem setFlag_score (r : ScoreResult) (m : Nat) :
    (setFlag r m).extracted_score = r.extracted_score := by
  rcases m with _ | _ | _ | _ | _ | _ | _ | m <;> rfl

theorem setFlag_self (r : ScoreResult) (k : Nat) (h1 : 1 ≤ k) (h6 : k ≤ 6) :
    flagOf (setFlag r k) k = 1 := by
  interval_cases k <;> rfl

theorem setFlag_other (r : ScoreResult) (m k : Nat) (hne : m ≠ k) :
    flagOf (setFlag r m) k = flagOf r k := by
  rcases m with _ | _ | _ | _ | _ | _ | _ | m <;>
    rcases k with _ | _ | _ | _ | _ | _ | _ | k <;>
      first
        | rfl
        | exact absurd rfl hne

theorem flagOf_base (k : Nat) : flagOf baseResult k = 0 := by
  rcases k with _ | _ | _ | _ | _ | _ | _ | k <;> rfl

theorem enumFold_snd (scores : List Nat) (acc : ScoreResult × List (List Char)) :
    (scores.foldl enumStep acc).2 = acc.2 ++ scores.filterMap intToRoman := by
  induction scores generalizing acc with
  | nil => simp
  | cons s ss ih =>
    rw [List.foldl_cons, ih]
    cases h : intToRoman s with
    | none => simp [enumStep, h, List.filterMap_cons]
    | some rv => simp [enumStep, h, List.filterMap_cons]

theorem enumFold_score (scores : List Nat) (acc : ScoreResult × List (List Char)) :
    (scores.foldl enumStep acc).1.extracted_score = acc.1.extracted_score := by
  induction scores generalizing acc with
  | nil => rfl
  | cons s ss ih =>
    rw [List.foldl_cons, ih]
    cases h : intToRoman s with
    | none => simp [enumStep, h]
    | some rv => simp [enumStep, h, setFlag_score]

theorem enumFold_flag (scores : List Nat) (acc : ScoreResult × List (List Char))
    (k : Nat) (h1 : 1 ≤ k) (h6 : k ≤ 6) :
    (flagOf (scores.foldl enumStep acc).1 k = 1 ↔ k ∈ scores ∨ flagOf acc.1 k = 1) := by
  induction scores generalizing acc with
  | nil => simp
  | cons s ss ih =>
    rw [List.foldl_cons]
    rw [ih (enumStep acc s)]
    have hstep : flagOf (enumStep acc s).1 k = 1 ↔ (s = k ∨ flagOf acc.1 k = 1) := by
      cases h : intToRoman s with
      | none =>
        have hs := intToRoman_none s h
        have hne : s ≠ k := by omega
        simp [enumStep, h, hne]
      | some rv =>
        by_cases hsk : s = k
        · subst hsk
          simp [enumStep, h, setFlag_self _ _ h1 h6]
        · simp [enumStep, h, setFlag_other _ _ _ hsk, hsk]
    rw [hstep]
    simp [List.mem_cons]
    tauto

/-- Unfolding equation for the enumeration branch. -/
theorem enumResult_eq (scores : List Nat) :
    enumResult scores =
      (if (scores.foldl enumStep (baseResult, [])).2.isEmpty then
        (scores.foldl enumStep (baseResult, [])).1
       else
        { (scores.foldl enumStep (baseResult, [])).1 with
          extracted_score :=
            String.mk (joinComma (scores.foldl enumStep (baseResult, [])).2) }) := rfl

theorem enumResult_ne_all (scores : List Nat) :
    (enumResult scores).extracted_score ≠ "All" := by
  have hsnd := enumFold_snd scores (baseResult, [])
  rw [enumResult_eq, hsnd]
  simp only [List.nil_append]
  cases hh : scores.filterMap intToRoman with
  | nil =>
    simp only [List.isEmpty_nil, if_true]
    rw [enumFold_score]
    decide
  | cons rv rest =>
    simp only [List.isEmpty_cons, if_false]
    obtain ⟨s, _, hs⟩ := List.mem_filterMap.mp (hh ▸ List.mem_cons_self rv rest)
    obtain ⟨c, cs, hrv, hc⟩ := intToRoman_headIV s rv hs
    subst hrv
    obtain ⟨t, ht⟩ := joinComma_head c cs rest
    rw [ht]
    intro h
    have h2 : c = 'A' := congrArg (fun s => s.data.headD ' ') h
    rcases hc with hc | hc <;> subst hc <;> exact absurd h2 (by decide)

theorem range_score_ne_all (a b : Nat) (h1 : 1 ≤ a) (h6 : a ≤ 6) :
    (rangeResult a b).extracted_score ≠ "All" := by
  have hscore : (rangeResult a b).extracted_score =
      String.mk ((intToRoman a).getD [] ++ '-' :: (intToRoman b).getD []) := rfl
  rw [hscore]
  interval_cases a <;> intro h <;>
    first
      | exact absurd (show ('I' : Char) = 'A' from congrArg (fun s => s.data.headD ' ') h)
          (by decide)
      | exact absurd (show ('V' : Char) = 'A' from congrArg (fun s => s.data.headD ' ') h)
          (by decide)

/-! ## Claim C10: non-string input yields the empty dictionary -/

/-- Claim C10: for every non-string input, extract_and_standardize_scores
returns the empty dictionary, which carries neither an extracted_score
label nor any of the six type flags, rather than a full result
dictionary. -/
theorem C10_nonstring_empty (x : PyObj) (h : ∀ s, x ≠ .str s) :
    extract_and_standardize_scores x = .empty := by
  cases x with
  | str s => exact absurd rfl (h s)
  | nonStr t => rfl

/-- Witness for C10 at a concrete non-string input. -/
theorem C10_witness :
    (∀ s, PyObj.nonStr 0 ≠ PyObj.str s) ∧
      extract_and_standardize_scores (.nonStr 0) = .empty :=
  ⟨fun _ h => PyObj.noConfusion h,
   C10_nonstring_empty (.nonStr 0) (fun _ h => PyObj.noConfusion h)⟩

/-! ## Claim C9: the all-or-any test is a plain substring test -/

/-- Claim C9: for every sentence without the disqualifying term, the
classifier returns the all-flags result with label All exactly when the
lower-cased sentence contains all or any as a substring, including inside
longer words. -/
theorem C9_all_any_substring (s : String)
    (hw : hasSub ['w','r','i','n','k','l','e'] (lowerData s) = false) :
    (extract_and_standardize_scores (.str s) = .result ⟨"All", 1, 1, 1, 1, 1, 1⟩ ↔
      (hasSub ['a','l','l'] (lowerData s) = true ∨
       hasSub ['a','n','y'] (lowerData s) = true)) := by
  simp only [extract_and_standardize_scores, hw, Bool.false_eq_true, if_false]
  by_cases hcase : (hasSub ['a','l','l'] (lowerData s) = true ∨
      hasSub ['a','n','y'] (lowerData s) = true)
  · have hb : (hasSub ['a','l','l'] (lowerData s) ||
        hasSub ['a','n','y'] (lowerData s)) = true := by
      rcases hcase with h | h <;> simp [h]
    rw [if_pos hb]
    exact iff_of_true rfl hcase
  · have hb : (hasSub ['a','l','l'] (lowerData s) ||
        hasSub ['a','n','y'] (lowerData s)) = false := by
      rcases not_or.mp hcase with ⟨h1, h2⟩
      simp [Bool.not_eq_true] at h1 h2
      simp [h1, h2]
    rw [if_neg (by rw [hb]; exact Bool.false_ne_true)]
    apply iff_of_false _ hcase
    cases hr : rangeSearch (lowerData s) with
    | some pair =>
      obtain ⟨t1, t2⟩ := pair
      obtain ⟨hm1, _⟩ := rangeSearch_mem _ _ _ hr
      obtain ⟨hs1, hlo1, hhi1⟩ := tokToInt_of_mem t1 hm1
      cases h1 : tokToInt t1 with
      | none => rw [h1] at hs1; simp at hs1
      | some a =>
        cases h2 : tokToInt t2 with
        | none =>
          simp only [h1, h2]
          intro heq
          simp only [ScoreOutput.result.injEq] at heq
          exact absurd (congrArg ScoreResult.extracted_score heq) (by decide)
        | some b =>
          have ha1 : 1 ≤ a := by rw [h1] at hlo1; simpa using hlo1
          have ha6 : a ≤ 6 := by rw [h1] at hhi1; simpa using hhi1
          simp only [h1, h2]
          by_cases hlt : a < b
          · rw [if_pos hlt]
            intro heq
            simp only [ScoreOutput.result.injEq] at heq
            exact range_score_ne_all a b ha1 ha6 (congrArg ScoreResult.extracted_score heq)
          · rw [if_neg hlt]
            intro heq
            simp only [ScoreOutput.result.injEq] at heq
            exact absurd (congrArg ScoreResult.extracted_score heq) (by decide)
    | none =>
      intro heq
      have heq2 : ScoreOutput.result
          (enumResult (sortedDedup ((findNumerals (lowerData s)).filterMap tokToInt))) =
          ScoreOutput.result ⟨"All", 1, 1, 1, 1, 1, 1⟩ := heq
      simp only [ScoreOutput.result.injEq] at heq2
      exact enumResult_ne_all _ (congrArg ScoreResult.extracted_score heq2)

/-- Witness for C9: the word smallpox contains all inside a longer word
and yields the all-flags result. -/
theorem C9_witness :
    extract_and_standardize_scores (.str "smallpox") = .result ⟨"All", 1, 1, 1, 1, 1, 1⟩ :=
  (C9_all_any_substring "smallpox" (by decide)).mpr (by decide)

/-! ## Flag characterisations of the two numeral branches -/

theorem flagOf_score_update (r : ScoreResult) (x : String) (k : Nat) :
    flagOf { r with extracted_score := x } k = flagOf r k := by
  rcases k with _ | _ | _ | _ | _ | _ | _ | k <;> rfl

theorem foldl_setFlag_flag (l : List Nat) (r : ScoreResult) (k : Nat)
    (h1 : 1 ≤ k) (h6 : k ≤ 6) :
    (flagOf (l.foldl setFlag r) k = 1 ↔ k ∈ l ∨ flagOf r k = 1) := by
  induction l generalizing r with
  | nil => simp
  | cons m ms ih =>
    rw [List.foldl_cons, ih]
    simp only [List.mem_cons]
    by_cases hmk : m = k
    · subst hmk
      simp [setFlag_self _ _ h1 h6]
    · rw [setFlag_other _ _ _ hmk]
      have hkm : ¬k = m := fun h => hmk h.symm
      tauto

theorem rangeResult_flag (a b k : Nat) (h1 : 1 ≤ k) (h6 : k ≤ 6) :
    (flagOf (rangeResult a b) k = 1 ↔ (a ≤ k ∧ k ≤ b)) := by
  unfold rangeResult
  rw [flagOf_score_update, foldl_setFlag_flag _ _ _ h1 h6, flagOf_base]
  simp only [List.mem_range'_1]
  omega

theorem enumResult_score (ints : List Nat) :
    (enumResult ints).extracted_score =
      (if (ints.filterMap intToRoman).isEmpty then "Not Specified"
       else String.mk (joinComma (ints.filterMap intToRoman))) := by
  rw [enumResult_eq]
  have hsnd := enumFold_snd ints (baseResult, [])
  simp only [List.nil_append] at hsnd
  rw [hsnd]
  by_cases h : (ints.filterMap intToRoman).isEmpty = true
  · rw [if_pos h, if_pos h, enumFold_score]
    rfl
  · rw [if_neg h, if_neg h]

theorem enumResult_flag (ints : List Nat) (k : Nat) (h1 : 1 ≤ k) (h6 : k ≤ 6) :
    (flagOf (enumResult ints) k = 1 ↔ k ∈ ints) := by
  rw [enumResult_eq]
  by_cases h : ((ints.foldl enumStep (baseResult, [])).2).isEmpty = true
  · rw [if_pos h, enumFold_flag _ _ _ h1 h6]
    simp [flagOf_base]
  · rw [if_neg h, flagOf_score_update, enumFold_flag _ _ _ h1 h6]
    simp [flagOf_base]

/-! ## Claim C5: range semantics, with the discarded inverted range -/

/-- Claim C5: for a sentence with no disqualifying term and no all-or-any
hit on which the range pattern matches, an inverted or equal range (start
at least end) sets no flags, skips the enumeration path entirely, and
leaves the Not Specified label; a proper range sets exactly the flags of
the closed interval and the dashed Roman label. -/
theorem C5_range_semantics (s : String) (t1 t2 : List Char) (a b : Nat)
    (hw : hasSub ['w','r','i','n','k','l','e'] (lowerData s) = false)
    (ha : hasSub ['a','l','l'] (lowerData s) = false)
    (hy : hasSub ['a','n','y'] (lowerData s) = false)
    (hr : rangeSearch (lowerData s) = some (t1, t2))
    (h1 : tokToInt t1 = some a) (h2 : tokToInt t2 = some b) :
    (b ≤ a → extract_and_standardize_scores (.str s) = .result baseResult) ∧
    (a < b →
      extract_and_standardize_scores (.str s) = .result (rangeResult a b) ∧
      (rangeResult a b).extracted_score =
        String.mk ((intToRoman a).getD [] ++ '-' :: (intToRoman b).getD []) ∧
      (∀ k, 1 ≤ k → k ≤ 6 → (flagOf (rangeResult a b) k = 1 ↔ (a ≤ k ∧ k ≤ b)))) := by
  have hall : (hasSub ['a','l','l'] (lowerData s) ||
      hasSub ['a','n','y'] (lowerData s)) = false := by simp [ha, hy]
  have hmain : extract_and_standardize_scores (.str s) =
      (if a < b then .result (rangeResult a b) else .result baseResult) := by
    simp only [extract_and_standardize_scores, hw, Bool.false_eq_true, if_false,
      hall, hr, h1, h2]
  constructor
  · intro hba
    rw [hmain, if_neg (by omega)]
  · intro hab
    exact ⟨by rw [hmain, if_pos hab], rfl,
      fun k hk1 hk6 => rangeResult_flag a b k hk1 hk6⟩

/-- Witness for C5 at a concrete proper range. -/
theorem C5_witness :
    extract_and_standardize_scores (.str "skin types ii to iv") = .result (rangeResult 2 4) :=
  ((C5_range_semantics "skin types ii to iv" ['i','i'] ['i','v'] 2 4 (by decide) (by decide)
      (by decide) (by decide) (by decide) (by decide)).2 (by decide)).1

/-! ## Claim C4: the enumeration label is in numeric order, not
appearance order -/

/-- Counterexample to C4 as stated: the sentence lists V before I, yet the
label is built in ascending numeric order and begins with I. -/
theorem C4_counterexample :
    findNumerals (lowerData "fitzpatrick type v or i") = [['v'], ['i']] ∧
    extract_and_standardize_scores (.str "fitzpatrick type v or i") =
      .result ⟨"I, V", 1, 0, 0, 0, 1, 0⟩ := by decide

/-- Claim C4 (amended): on the enumeration path the label is the
comma-join of the deduplicated matched numerals in ascending numeric
order (not appearance order), and the flags are set exactly for the
matched numerals. -/
theorem C4_enumeration_order (s : String)
    (hw : hasSub ['w','r','i','n','k','l','e'] (lowerData s) = false)
    (ha : hasSub ['a','l','l'] (lowerData s) = false)
    (hy : hasSub ['a','n','y'] (lowerData s) = false)
    (hr : rangeSearch (lowerData s) = none) :
    ∃ ints : List Nat,
      List.Sorted (· ≤ ·) ints ∧ ints.Nodup ∧
      (∀ k, k ∈ ints ↔ k ∈ (findNumerals (lowerData s)).filterMap tokToInt) ∧
      extract_and_standardize_scores (.str s) = .result (enumResult ints) ∧
      (∀ k, 1 ≤ k → k ≤ 6 → (flagOf (enumResult ints) k = 1 ↔ k ∈ ints)) ∧
      (enumResult ints).extracted_score =
        (if (ints.filterMap intToRoman).isEmpty then "Not Specified"
         else String.mk (joinComma (ints.filterMap intToRoman))) := by
  have hall : (hasSub ['a','l','l'] (lowerData s) ||
      hasSub ['a','n','y'] (lowerData s)) = false := by simp [ha, hy]
  refine ⟨sortedDedup ((findNumerals (lowerData s)).filterMap tokToInt),
    List.sorted_insertionSort _ _,
    ((List.perm_insertionSort _ _).nodup_iff).mpr (List.nodup_dedup _),
    fun k => by rw [sortedDedup, (List.perm_insertionSort _ _).mem_iff, List.mem_dedup],
    ?_, fun k hk1 hk6 => enumResult_flag _ _ hk1 hk6, enumResult_score _⟩
  simp only [extract_and_standardize_scores, hw, Bool.false_eq_true, if_false, hall, hr]

/-! ## Lemmas relating the split of the segmenter to the first-occurrence
split of the specification -/

theorem isPreCI_length (p : List Char) : ∀ cs rest : List Char,
    isPreCI p cs = some rest → rest.length + p.length = cs.length := by
  induction p with
  | nil =>
    intro cs rest h
    simp [isPreCI] at h
    simp [h]
  | cons x xs ih =>
    intro cs rest h
    cases cs with
    | nil => simp [isPreCI] at h
    | cons c cs' =>
      unfold isPreCI at h
      by_cases hc : c.toLower = x
      · rw [if_pos hc] at h
        have := ih cs' rest h
        simp only [List.length_cons]
        omega
      · rw [if_neg hc] at h
        cases h

theorem splitExcl_irrel (f : Nat) : ∀ (g : Nat) (cs : List Char),
    cs.length < f → cs.length < g → splitExcl f cs = splitExcl g cs := by
  induction f with
  | zero => intro g cs hf; omega
  | succ f ih =>
    intro g cs hf hg
    cases g with
    | zero => omega
    | succ g =>
      cases cs with
      | nil => rfl
      | cons c cs' =>
        unfold splitExcl
        cases hp : isPreCI exclPat (c :: cs') with
        | some rest =>
          have hlen := isPreCI_length _ _ _ hp
          have hb : rest.length < f ∧ rest.length < g := by
            simp [exclPat, List.length_cons] at hlen
            simp only [List.length_cons] at hf hg
            omega
          show [] :: splitExcl f rest = [] :: splitExcl g rest
          rw [ih g rest hb.1 hb.2]
        | none =>
          have hb : cs'.length < f ∧ cs'.length < g := by
            simp only [List.length_cons] at hf hg
            omega
          show consHead c (splitExcl f cs') = consHead c (splitExcl g cs')
          rw [ih g cs' hb.1 hb.2]

theorem splitFirstCI_irrel (f : Nat) : ∀ (g : Nat) (cs : List Char),
    cs.length < f → cs.length < g → splitFirstCI f cs = splitFirstCI g cs := by
  induction f with
  | zero => intro g cs hf; omega
  | succ f ih =>
    intro g cs hf hg
    cases g with
    | zero => omega
    | succ g =>
      cases cs with
      | nil => rfl
      | cons c cs' =>
        unfold splitFirstCI
        cases hp : isPreCI exclPat (c :: cs') with
        | some rest => rfl
        | none =>
          have : cs'.length < f ∧ cs'.length < g := by
            simp only [List.length_cons] at hf hg
            omega
          rw [ih g cs' this.1 this.2]

theorem splitFirstCI_rest_length (f : Nat) : ∀ (cs rest : List Char),
    (splitFirstCI f cs).2 = some rest → rest.length + 9 ≤ cs.length := by
  induction f with
  | zero => intro cs rest h; simp [splitFirstCI] at h
  | succ f ih =>
    intro cs rest h
    cases cs with
    | nil => simp [splitFirstCI] at h
    | cons c cs' =>
      unfold splitFirstCI at h
      cases hp : isPreCI exclPat (c :: cs') with
      | some r =>
        simp only [hp] at h
        have hlen := isPreCI_length _ _ _ hp
        simp [exclPat, List.length_cons] at hlen
        obtain rfl : r = rest := by simpa using h
        simp only [List.length_cons]
        omega
      | none =>
        simp only [hp] at h
        have := ih cs' rest h
        simp only [List.length_cons]
        omega

theorem splitExcl_first (f : Nat) : ∀ cs : List Char, cs.length < f →
    splitExcl f cs =
      (splitFirstCI f cs).1 ::
        (match (splitFirstCI f cs).2 with
         | none => []
         | some rest => splitExcl (f - 1) rest) := by
  induction f with
  | zero => intro cs hf; omega
  | succ f ih =>
    intro cs hf
    cases cs with
    | nil => rfl
    | cons c cs' =>
      rw [splitExcl, splitFirstCI]
      cases hp : isPreCI exclPat (c :: cs') with
      | some rest => simp
      | none =>
        simp only
        have hlt : cs'.length < f := by
          simp only [List.length_cons] at hf
          omega
        rw [ih cs' hlt, consHead]
        congr 1
        cases hq : (splitFirstCI f cs').2 with
        | none => rfl
        | some rest =>
          simp only [Nat.add_sub_cancel]
          have hr := splitFirstCI_rest_length f cs' rest hq
          exact splitExcl_irrel _ _ _ (by omega) (by omega)

theorem splitExclusion_head (cs : List Char) :
    (splitExclusion cs).headD [] = (specSplitFirst cs).1 := by
  rw [splitExclusion, splitExcl_first _ _ (by omega)]
  rfl

theorem splitExclusion_getD1 (cs : List Char) :
    (splitExclusion cs).getD 1 [] =
      (match (specSplitFirst cs).2 with
       | none => []
       | some rest => (specSplitFirst rest).1) := by
  rw [splitExclusion, splitExcl_first _ _ (by omega)]
  show (match (specSplitFirst cs).2 with
       | none => ([] : List (List Char))
       | some rest => splitExcl (cs.length + 1 - 1) rest).getD 0 [] = _
  cases hq : (specSplitFirst cs).2 with
  | none => rfl
  | some rest =>
    simp only [Nat.add_sub_cancel]
    have hr := splitFirstCI_rest_length _ _ _ hq
    rw [splitExcl_irrel _ _ _ (by omega) (Nat.lt_succ_self _),
      splitExcl_first _ _ (Nat.lt_succ_self _)]
    rfl

theorem keepSentences_nil (kw : List Char) (b : Bool) :
    keepSentences kw b [] = [] := by
  simp [keepSentences, splitDots, pyStrip]

/-! ## Claim C3: the segmenter's split -/

/-- Counterexample to C3 as stated: with two occurrences of the split
word, the keyword sentence after the second occurrence is discarded
entirely instead of being emitted as an exclusion sentence. -/
theorem C3_counterexample :
    parseCriteriaText
        "fitzpatrick a. exclusion fitzpatrick b. exclusion fitzpatrick c."
        "fitzpatrick" =
      [⟨"fitzpatrick a", false⟩, ⟨"fitzpatrick b", true⟩] ∧
    (EligSentence.mk "fitzpatrick c" true) ∉
      parseCriteriaText
        "fitzpatrick a. exclusion fitzpatrick b. exclusion fitzpatrick c."
        "fitzpatrick" := by
  constructor
  · decide
  · decide

/-- Claim C3 (amended): the segmenter emits the retained sentences of the
text before the first case-insensitive occurrence of the word exclusion as
inclusion sentences, followed by the retained sentences of the text
strictly between the first and second occurrences (all the remaining text
when the word occurs once) as exclusion sentences; text after a second
occurrence is discarded. -/
theorem C3_split_semantics (text keyword : String) :
    parseCriteriaText text keyword =
      keepSentences keyword.data false (specSplitFirst text.data).1 ++
      (match (specSplitFirst text.data).2 with
       | none => []
       | some rest => keepSentences keyword.data true (specSplitFirst rest).1) := by
  by_cases htext : text = ""
  · subst htext
    show ([] : List EligSentence) = _
    have h0 : specSplitFirst ("".data) = ([], none) := rfl
    rw [h0]
    rw [keepSentences_nil]
    rfl
  · unfold parseCriteriaText
    rw [if_neg htext]
    simp only [List.flatMap_cons, List.flatMap_nil, List.append_nil]
    rw [splitExclusion_head, splitExclusion_getD1]
    have hguard : ∀ (b : Bool) (part : List Char),
        (if part.isEmpty then [] else keepSentences keyword.data b part) =
          keepSentences keyword.data b part := by
      intro b part
      by_cases hp : part.isEmpty = true
      · rw [if_pos hp]
        cases part with
        | nil => exact (keepSentences_nil _ _).symm
        | cons c cs => simp at hp
      · rw [if_neg hp]
    rw [hguard, hguard]
    congr 1
    cases hq : (specSplitFirst text.data).2 with
    | none => exact keepSentences_nil _ _
    | some rest => rfl

/-- Witness for C4 at a concrete enumeration sentence. -/
theorem C4_witness :
    ∃ ints : List Nat,
      List.Sorted (· ≤ ·) ints ∧ ints.Nodup ∧
      (∀ k, k ∈ ints ↔
        k ∈ (findNumerals (lowerData "types i, iii, and v")).filterMap tokToInt) ∧
      extract_and_standardize_scores (.str "types i, iii, and v") =
        .result (enumResult ints) ∧
      (∀ k, 1 ≤ k → k ≤ 6 → (flagOf (enumResult ints) k = 1 ↔ k ∈ ints)) ∧
      (enumResult ints).extracted_score =
        (if (ints.filterMap intToRoman).isEmpty then "Not Specified"
         else String.mk (joinComma (ints.filterMap intToRoman))) :=
  C4_enumeration_order "types i, iii, and v" (by decide) (by decide) (by decide) (by decide)

/-! ## Unfolding lemmas for the geocoding loop -/

theorem geoLoop_skip (api : String → ApiResult) (row : GRow) (rest : List GRow)
    (cache : List (String × Option (List Place))) (calls : List String)
    (h : row.search_query = "SKIP") :
    geoLoop api (row :: rest) cache calls =
      ⟨row :: (geoLoop api rest cache calls).rows,
       (geoLoop api rest cache calls).cache,
       (geoLoop api rest cache calls).calls⟩ := by
  conv_lhs => unfold geoLoop
  rw [if_pos h]

theorem geoLoop_hit (api : String → ApiResult) (row : GRow) (rest : List GRow)
    (cache : List (String × Option (List Place))) (calls : List String)
    (result : Option (List Place)) (h : ¬row.search_query = "SKIP")
    (hl : List.lookup row.search_query cache = some result) :
    geoLoop api (row :: rest) cache calls =
      ⟨applyRes row result :: (geoLoop api rest cache calls).rows,
       (geoLoop api rest cache calls).cache,
       (geoLoop api rest cache calls).calls⟩ := by
  conv_lhs => unfold geoLoop
  rw [if_neg h, hl]

theorem geoLoop_miss_exn (api : String → ApiResult) (row : GRow) (rest : List GRow)
    (cache : List (String × Option (List Place))) (calls : List String)
    (h : ¬row.search_query = "SKIP")
    (hl : List.lookup row.search_query cache = none)
    (ha : api row.search_query = .exn) :
    geoLoop api (row :: rest) cache calls =
      ⟨row :: (geoLoop api rest ((row.search_query, none) :: cache)
          (calls ++ [row.search_query])).rows,
       (geoLoop api rest ((row.search_query, none) :: cache)
          (calls ++ [row.search_query])).cache,
       (geoLoop api rest ((row.search_query, none) :: cache)
          (calls ++ [row.search_query])).calls⟩ := by
  conv_lhs => unfold geoLoop
  rw [if_neg h, hl, ha]

theorem geoLoop_miss_ok (api : String → ApiResult) (row : GRow) (rest : List GRow)
    (cache : List (String × Option (List Place))) (calls : List String)
    (places : List Place) (h : ¬row.search_query = "SKIP")
    (hl : List.lookup row.search_query cache = none)
    (ha : api row.search_query = .ok places) :
    geoLoop api (row :: rest) cache calls =
      ⟨applyRes row (some places) :: (geoLoop api rest
          ((row.search_query, some places) :: cache) (calls ++ [row.search_query])).rows,
       (geoLoop api rest ((row.search_query, some places) :: cache)
          (calls ++ [row.search_query])).cache,
       (geoLoop api rest ((row.search_query, some places) :: cache)
          (calls ++ [row.search_query])).calls⟩ := by
  conv_lhs => unfold geoLoop
  rw [if_neg h, hl, ha]

theorem applyRes_fields (row : GRow) (o : Option (List Place)) :
    (applyRes row o).facility = row.facility ∧
    (applyRes row o).city = row.city ∧
    (applyRes row o).state = row.state ∧
    (applyRes row o).zip = row.zip ∧
    (applyRes row o).search_query = row.search_query ∧
    (applyRes row o).extra = row.extra := by
  rcases o with _ | (_ | ⟨p, ps⟩) <;> exact ⟨rfl, rfl, rfl, rfl, rfl, rfl⟩

/-! ## Claim C2: one external call per distinct workable query -/

theorem geoLoop_calls (api : String → ApiResult) : ∀ (rows : List GRow)
    (cache : List (String × Option (List Place))) (calls : List String),
    calls.Nodup → (∀ q, q ∈ calls ↔ (List.lookup q cache).isSome = true) →
    (geoLoop api rows cache calls).calls.Nodup ∧
    (∀ q, q ∈ (geoLoop api rows cache calls).calls ↔
      (q ∈ calls ∨ q ∈ (rows.map (·.search_query)).filter fun x => !(x == "SKIP"))) := by
  intro rows
  induction rows with
  | nil =>
    intro cache calls hnd hinv
    exact ⟨hnd, fun q => by simp [geoLoop]⟩
  | cons row rest ih =>
    intro cache calls hnd hinv
    by_cases hskip : row.search_query = "SKIP"
    · rw [geoLoop_skip api row rest cache calls hskip]
      obtain ⟨h1, h2⟩ := ih cache calls hnd hinv
      refine ⟨h1, fun q => ?_⟩
      have hrest : (q ∈ calls ∨
          q ∈ (rest.map (·.search_query)).filter fun x => !(x == "SKIP")) ↔
          (q ∈ calls ∨
          q ∈ ((row :: rest).map (·.search_query)).filter fun x => !(x == "SKIP")) := by
        simp only [List.map_cons, List.filter_cons, hskip]
        rw [if_neg (by simp)]
      exact Iff.trans (h2 q) hrest
    · cases hl : List.lookup row.search_query cache with
      | some result =>
        rw [geoLoop_hit api row rest cache calls result hskip hl]
        obtain ⟨h1, h2⟩ := ih cache calls hnd hinv
        refine ⟨h1, fun q => ?_⟩
        have hqin : row.search_query ∈ calls := (hinv _).mpr (by simp [hl])
        have hrest : (q ∈ calls ∨
            q ∈ (rest.map (·.search_query)).filter fun x => !(x == "SKIP")) ↔
            (q ∈ calls ∨
            q ∈ ((row :: rest).map (·.search_query)).filter fun x => !(x == "SKIP")) := by
          simp only [List.map_cons, List.filter_cons]
          rw [if_pos (by simp [hskip])]
          simp only [List.mem_cons]
          constructor
          · rintro (h | h)
            · exact Or.inl h
            · exact Or.inr (Or.inr h)
          · rintro (h | h | h)
            · exact Or.inl h
            · exact Or.inl (h ▸ hqin)
            · exact Or.inr h
        exact Iff.trans (h2 q) hrest
      | none =>
        have hqout : row.search_query ∉ calls := fun hq => by
          have hx := (hinv _).mp hq
          rw [hl] at hx
          simp at hx
        have hnd' : (calls ++ [row.search_query]).Nodup := by
          simp [List.nodup_append, hnd, hqout]
        have hinv' : ∀ (v : Option (List Place)) q,
            q ∈ calls ++ [row.search_query] ↔
            (List.lookup q ((row.search_query, v) :: cache)).isSome = true := by
          intro v q
          by_cases hq : q = row.search_query
          · subst hq
            simp [List.lookup_cons]
          · have hbq : (q == row.search_query) = false := by
              simpa using hq
            simp [List.lookup_cons, hbq, hq, hinv q]
        have hrest : ∀ X : Prop, ((q : String) → True) → True := fun _ _ => trivial
        cases hapi : api row.search_query with
        | exn =>
          rw [geoLoop_miss_exn api row rest cache calls hskip hl hapi]
          obtain ⟨h1, h2⟩ := ih _ _ hnd' (hinv' none)
          refine ⟨h1, fun q => ?_⟩
          have hr2 : (q ∈ calls ++ [row.search_query] ∨
              q ∈ (rest.map (·.search_query)).filter fun x => !(x == "SKIP")) ↔
              (q ∈ calls ∨
              q ∈ ((row :: rest).map (·.search_query)).filter fun x => !(x == "SKIP")) := by
            simp only [List.map_cons, List.filter_cons]
            rw [if_pos (by simp [hskip])]
            simp only [List.mem_append, List.mem_singleton, List.mem_cons]
            tauto
          exact Iff.trans (h2 q) hr2
        | ok places =>
          rw [geoLoop_miss_ok api row rest cache calls places hskip hl hapi]
          obtain ⟨h1, h2⟩ := ih _ _ hnd' (hinv' (some places))
          refine ⟨h1, fun q => ?_⟩
          have hr2 : (q ∈ calls ++ [row.search_query] ∨
              q ∈ (rest.map (·.search_query)).filter fun x => !(x == "SKIP")) ↔
              (q ∈ calls ∨
              q ∈ ((row :: rest).map (·.search_query)).filter fun x => !(x == "SKIP")) := by
            simp only [List.map_cons, List.filter_cons]
            rw [if_pos (by simp [hskip])]
            simp only [List.mem_append, List.mem_singleton, List.mem_cons]
            tauto
          exact Iff.trans (h2 q) hr2

/-- Claim C2: across a whole geocoding run, each distinct workable query
string triggers exactly one external call — the cache is consulted before
every call and stores every outcome, so no query string is ever sent
twice. -/
theorem C2_one_call_per_query (df : List InRow) (api : String → ApiResult) (q : String) :
    (geoRunOf api df).calls.count q = if q ∈ workQueries df then 1 else 0 := by
  obtain ⟨hnd, hmem⟩ := geoLoop_calls api (df.map prepareRow) [] []
    List.nodup_nil (fun q' => by simp [List.lookup_nil])
  have hm := hmem q
  simp only [List.not_mem_nil, false_or] at hm
  by_cases hq : q ∈ workQueries df
  · rw [if_pos hq]
    exact List.count_eq_one_of_mem hnd (hm.mpr hq)
  · rw [if_neg hq]
    exact List.count_eq_zero.mpr fun hin => hq (hm.mp hin)

/-! ## Claim C8: the frame effect of the geocoding stage -/

theorem geoLoop_preserve (api : String → ApiResult) : ∀ (rows : List GRow)
    (cache : List (String × Option (List Place))) (calls : List String)
    (i : Nat) (row : GRow), rows.get? i = some row →
    ∃ row', (geoLoop api rows cache calls).rows.get? i = some row' ∧
      row'.facility = row.facility ∧ row'.city = row.city ∧
      row'.state = row.state ∧ row'.zip = row.zip ∧
      row'.search_query = row.search_query ∧ row'.extra = row.extra ∧
      (row.search_query = "SKIP" → row' = row) := by
  intro rows
  induction rows with
  | nil => intro cache calls i row h; simp at h
  | cons r0 rest ih =>
    intro cache calls i row h
    by_cases hskip : r0.search_query = "SKIP"
    · rw [geoLoop_skip api r0 rest cache calls hskip]
      cases i with
      | zero =>
        obtain rfl : r0 = row := by simpa using h
        exact ⟨r0, rfl, rfl, rfl, rfl, rfl, rfl, rfl, fun _ => rfl⟩
      | succ i =>
        have h' : rest.get? i = some row := by simpa using h
        obtain ⟨row', h1, h2⟩ := ih cache calls i row h'
        exact ⟨row', by simpa using h1, h2⟩
    · cases hl : List.lookup r0.search_query cache with
      | some result =>
        rw [geoLoop_hit api r0 rest cache calls result hskip hl]
        cases i with
        | zero =>
          obtain rfl : r0 = row := by simpa using h
          obtain ⟨hf, hc, hs, hz, hq, he⟩ := applyRes_fields r0 result
          exact ⟨applyRes r0 result, rfl, hf, hc, hs, hz, hq, he,
            fun hx => absurd hx hskip⟩
        | succ i =>
          have h' : rest.get? i = some row := by simpa using h
          obtain ⟨row', h1, h2⟩ := ih cache calls i row h'
          exact ⟨row', by simpa using h1, h2⟩
      | none =>
        cases hapi : api r0.search_query with
        | exn =>
          rw [geoLoop_miss_exn api r0 rest cache calls hskip hl hapi]
          cases i with
          | zero =>
            obtain rfl : r0 = row := by simpa using h
            exact ⟨r0, rfl, rfl, rfl, rfl, rfl, rfl, rfl, fun _ => rfl⟩
          | succ i =>
            have h' : rest.get? i = some row := by simpa using h
            obtain ⟨row', h1, h2⟩ := ih _ _ i row h'
            exact ⟨row', by simpa using h1, h2⟩
        | ok places =>
          rw [geoLoop_miss_ok api r0 rest cache calls places hskip hl hapi]
          cases i with
          | zero =>
            obtain rfl : r0 = row := by simpa using h
            obtain ⟨hf, hc, hs, hz, hq, he⟩ := applyRes_fields r0 (some places)
            exact ⟨applyRes r0 (some places), rfl, hf, hc, hs, hz, hq, he,
              fun hx => absurd hx hskip⟩
          | succ i =>
            have h' : rest.get? i = some row := by simpa using h
            obtain ⟨row', h1, h2⟩ := ih _ _ i row h'
            exact ⟨row', by simpa using h1, h2⟩

/-- Counterexample to C8 as stated: the stage is not free of effects on
the other fields — it casts the address columns to strings, so a numeric
zip cell comes back changed into its string form. -/
theorem C8_counterexample :
    (geocode_locations_with_places_api apiFail [c8row]).map (·.zip) = [Value.vstr "0"] ∧
    c8row.zip = Value.vnum 0 ∧ Value.vstr "0" ≠ Value.vnum 0 := by decide

/-- Claim C8 (amended): the geocoding stage leaves the extra columns of
every row unchanged, casts facility, city, state and zip to strings, adds
the search_query column, and overwrites latitude, longitude and the
display name only in workable rows: a row whose query is the SKIP
sentinel keeps its original latitude, longitude, and empty place name. -/
theorem C8_frame (df : List InRow) (api : String → ApiResult) (i : Nat) (r : InRow)
    (h : df.get? i = some r) :
    ∃ r', (geocode_locations_with_places_api api df).get? i = some r' ∧
      r'.extra = r.extra ∧
      r'.facility = Value.vstr (pyStr r.facility) ∧
      r'.city = Value.vstr (pyStr r.city) ∧
      r'.state = Value.vstr (pyStr r.state) ∧
      r'.zip = Value.vstr (pyStr r.zip) ∧
      r'.search_query =
        mkSearchQuery (pyStr r.facility) (pyStr r.city) (pyStr r.state) (pyStr r.zip) ∧
      (r'.search_query = "SKIP" →
        (r'.latitude = r.latitude ∧ r'.longitude = r.longitude ∧ r'.place_name = "")) := by
  have hp : (df.map prepareRow).get? i = some (prepareRow r) := by
    rw [List.get?_map, h]
    rfl
  obtain ⟨row', hget, hf, hc, hs, hz, hq, he, hsk⟩ :=
    geoLoop_preserve api (df.map prepareRow) [] [] i (prepareRow r) hp
  refine ⟨row', hget, he, hf, hc, hs, hz, hq, ?_⟩
  intro hx
  rw [hq] at hx
  have := hsk hx
  subst this
  exact ⟨rfl, rfl, rfl⟩

/-- Witness for C8 at a concrete single-row frame. -/
theorem C8_witness :
    ∃ r', (geocode_locations_with_places_api apiFail [c8row]).get? 0 = some r' ∧
      r'.extra = c8row.extra ∧
      r'.facility = Value.vstr (pyStr c8row.facility) ∧
      r'.city = Value.vstr (pyStr c8row.city) ∧
      r'.state = Value.vstr (pyStr c8row.state) ∧
      r'.zip = Value.vstr (pyStr c8row.zip) ∧
      r'.search_query = mkSearchQuery (pyStr c8row.facility) (pyStr c8row.city)
        (pyStr c8row.state) (pyStr c8row.zip) ∧
      (r'.search_query = "SKIP" →
        (r'.latitude = c8row.latitude ∧ r'.longitude = c8row.longitude ∧
         r'.place_name = "")) :=
  C8_frame [c8row] apiFail 0 c8row (by decide)

/-! ## Claim C6: failure handling of the geocoding loop -/

theorem geoLoop_fail (api : String → ApiResult) : ∀ (rows : List GRow)
    (cache : List (String × Option (List Place))) (calls : List String)
    (i : Nat) (row : GRow),
    (∀ q v, List.lookup q cache = some v → api q = ApiResult.exn → v = none) →
    rows.get? i = some row →
    ¬row.search_query = "SKIP" →
    api row.search_query = ApiResult.exn →
    ∃ row', (geoLoop api rows cache calls).rows.get? i = some row' ∧
      row'.latitude = row.latitude ∧ row'.longitude = row.longitude ∧
      row'.place_name =
        (if ((List.lookup row.search_query cache).isSome ||
            ((rows.take i).map (·.search_query)).contains row.search_query) = true
         then "NO_RESULTS_FOUND" else row.place_name) := by
  intro rows
  induction rows with
  | nil => intro cache calls i row _ h _ _; simp at h
  | cons r0 rest ih =>
    intro cache calls i row hcache h hskip hapi
    by_cases h0 : r0.search_query = "SKIP"
    · rw [geoLoop_skip api r0 rest cache calls h0]
      cases i with
      | zero =>
        obtain rfl : r0 = row := by simpa using h
        exact absurd h0 hskip
      | succ i =>
        have h' : rest.get? i = some row := by simpa using h
        obtain ⟨row', h1, h2, h3, h4⟩ := ih cache calls i row hcache h' hskip hapi
        refine ⟨row', by simpa using h1, h2, h3, ?_⟩
        rw [h4]
        congr 1
        simp only [List.take_succ_cons, List.map_cons, List.contains_cons, h0]
        have hbq : (row.search_query == "SKIP") = false := by simpa using hskip
        rw [hbq]
        simp
    · cases hl : List.lookup r0.search_query cache with
      | some result =>
        rw [geoLoop_hit api r0 rest cache calls result h0 hl]
        cases i with
        | zero =>
          obtain rfl : r0 = row := by simpa using h
          have hres : result = none := hcache _ _ hl hapi
          subst hres
          refine ⟨applyRes r0 none, rfl, rfl, rfl, ?_⟩
          rw [if_pos (by simp [hl])]
          rfl
        | succ i =>
          have h' : rest.get? i = some row := by simpa using h
          obtain ⟨row', h1, h2, h3, h4⟩ := ih cache calls i row hcache h' hskip hapi
          refine ⟨row', by simpa using h1, h2, h3, ?_⟩
          rw [h4]
          congr 1
          simp only [List.take_succ_cons, List.map_cons, List.contains_cons]
          by_cases hqq : row.search_query = r0.search_query
          · rw [hqq, hl]
            simp [hqq, hl]
          · have hbq : (row.search_query == r0.search_query) = false := by simpa using hqq
            rw [hbq]
            simp
      | none =>
        cases hapi0 : api r0.search_query with
        | exn =>
          rw [geoLoop_miss_exn api r0 rest cache calls h0 hl hapi0]
          have hcache' : ∀ q v,
              List.lookup q ((r0.search_query, none) :: cache) = some v →
              api q = ApiResult.exn → v = none := by
            intro q v hq hae
            by_cases hqr : (q == r0.search_query) = true
            · simp [List.lookup_cons, hqr] at hq
              exact hq.symm
            · have hbq : (q == r0.search_query) = false := by
                simpa using hqr
              simp [List.lookup_cons, hbq] at hq
              exact hcache _ _ hq hae
          cases i with
          | zero =>
            obtain rfl : r0 = row := by simpa using h
            refine ⟨r0, rfl, rfl, rfl, ?_⟩
            rw [if_neg (by simp [hl])]
          | succ i =>
            have h' : rest.get? i = some row := by simpa using h
            obtain ⟨row', h1, h2, h3, h4⟩ := ih _ _ i row hcache' h' hskip hapi
            refine ⟨row', by simpa using h1, h2, h3, ?_⟩
            rw [h4]
            congr 1
            simp only [List.take_succ_cons, List.map_cons, List.contains_cons]
            by_cases hqr : (row.search_query == r0.search_query) = true
            · have hqe : row.search_query = r0.search_query := by simpa using hqr
              simp [List.lookup_cons, hqe]
            · have hbq : (row.search_query == r0.search_query) = false := by
                simpa using hqr
              simp [List.lookup_cons, hbq]
        | ok places =>
          rw [geoLoop_miss_ok api r0 rest cache calls places h0 hl hapi0]
          have hcache' : ∀ q v,
              List.lookup q ((r0.search_query, some places) :: cache) = some v →
              api q = ApiResult.exn → v = none := by
            intro q v hq hae
            by_cases hqr : (q == r0.search_query) = true
            · have hqe : q = r0.search_query := by simpa using hqr
              rw [hqe, hapi0] at hae
              cases hae
            · have hbq : (q == r0.search_query) = false := by
                simpa using hqr
              simp [List.lookup_cons, hbq] at hq
              exact hcache _ _ hq hae
          cases i with
          | zero =>
            obtain rfl : r0 = row := by simpa using h
            rw [hapi] at hapi0
            cases hapi0
          | succ i =>
            have h' : rest.get? i = some row := by simpa using h
            obtain ⟨row', h1, h2, h3, h4⟩ := ih _ _ i row hcache' h' hskip hapi
            refine ⟨row', by simpa using h1, h2, h3, ?_⟩
            rw [h4]
            congr 1
            simp only [List.take_succ_cons, List.map_cons, List.contains_cons]
            by_cases hqr : (row.search_query == r0.search_query) = true
            · have hqe : row.search_query = r0.search_query := by simpa using hqr
              rw [← hqe] at hapi0
              rw [hapi] at hapi0
              cases hapi0
            · have hbq : (row.search_query == r0.search_query) = false := by
                simpa using hqr
              simp [List.lookup_cons, hbq]

/-- Counterexample to C6 as stated: with two rows sharing a failing
query, the first row is left untouched but the second, served from the
cached failure, has its display name set to the no-results sentinel
instead of being left unset. -/
theorem C6_counterexample :
    (geocode_locations_with_places_api apiFail [c6inRow, c6inRow]).map (·.place_name) =
      ["", "NO_RESULTS_FOUND"] ∧
    (geocode_locations_with_places_api apiFail [c6inRow, c6inRow]).map (·.latitude) =
      [Value.vnull, Value.vnull] := by decide

/-- Claim C6 (amended): when the external lookup of a workable row's
query raises, the row's latitude and longitude stay unset and the batch
continues; the display name stays unset on the row where the call itself
failed, but a later row sharing the cached-as-failed query gets the
no-results sentinel as its display name. -/
theorem C6_failure_semantics (df : List InRow) (api : String → ApiResult)
    (i : Nat) (r : GRow)
    (h : (df.map prepareRow).get? i = some r)
    (hskip : ¬r.search_query = "SKIP")
    (hfail : api r.search_query = ApiResult.exn) :
    ∃ r', (geocode_locations_with_places_api api df).get? i = some r' ∧
      r'.latitude = r.latitude ∧ r'.longitude = r.longitude ∧
      r'.place_name =
        (if (((df.map prepareRow).take i).map (·.search_query)).contains
            r.search_query = true
         then "NO_RESULTS_FOUND" else "") := by
  have hpn : r.place_name = "" := by
    rw [List.get?_map] at h
    cases hx : df.get? i with
    | none => rw [hx] at h; cases h
    | some x =>
      rw [hx] at h
      obtain rfl : prepareRow x = r := by simpa using h
      rfl
  obtain ⟨r', h1, h2, h3, h4⟩ := geoLoop_fail api (df.map prepareRow) [] [] i r
    (fun q v hq _ => by simp [List.lookup_nil] at hq) h hskip hfail
  refine ⟨r', h1, h2, h3, ?_⟩
  rw [h4, hpn]
  have hcond : ((List.lookup r.search_query
      ([] : List (String × Option (List Place)))).isSome ||
      (((df.map prepareRow).take i).map (·.search_query)).contains r.search_query) =
      (((df.map prepareRow).take i).map (·.search_query)).contains r.search_query := by
    simp [List.lookup_nil]
  rw [hcond]

/-- Witness for C6 at a concrete two-row batch with a failing service. -/
theorem C6_witness :
    ∃ r', (geocode_locations_with_places_api apiFail [c6inRow, c6inRow]).get? 1 =
        some r' ∧
      r'.latitude = c6row.latitude ∧ r'.longitude = c6row.longitude ∧
      r'.place_name =
        (if ((([c6inRow, c6inRow].map prepareRow).take 1).map (·.search_query)).contains
            c6row.search_query = true
         then "NO_RESULTS_FOUND" else "") :=
  C6_failure_semantics [c6inRow, c6inRow] apiFail 1 c6row (by decide) (by decide) rfl

/-! ## Claim C7: race-demographic extraction and non-numeric values -/

theorem foldlM_sum (l : List MeasurementJ) : ∀ init : Int, l.all valOk = true →
    l.foldlM (fun (s : Int) m => (pyInt (m.value.getD (.num 0))).map (s + ·)) init =
      some (init + (l.map fun m =>
        match m.value with
        | none => 0
        | some v => (pyInt v).getD 0).sum) := by
  induction l with
  | nil => intro init _; simp
  | cons m ms ih =>
    intro init hall
    simp only [List.all_cons, Bool.and_eq_true] at hall
    obtain ⟨hm, hms⟩ := hall
    obtain ⟨w, hw⟩ := Option.isSome_iff_exists.mp hm
    have hv : (match m.value with
        | none => (0 : Int)
        | some v => (pyInt v).getD 0) = w := by
      cases hmv : m.value with
      | none =>
        rw [hmv] at hw
        have hw0 : w = 0 := by simpa [pyInt] using hw.symm
        rw [hw0]
      | some v =>
        rw [hmv] at hw
        simp only [Option.getD_some] at hw
        simp [hw]
    rw [List.foldlM_cons, hw]
    simp only [Option.map_some']
    have step := ih (init + w) hms
    exact step.trans (congrArg some
      (by simp only [List.map_cons, List.sum_cons, hv]; omega))

theorem raceFromCategory_ok (acc : List (String × Int)) (cat : CategoryJ) (t : String)
    (ht : cat.title = some t) (hne : t ≠ "") (hc : catOk cat = true) :
    raceFromCategory acc cat =
      some (dictInsert ("Race_" ++ underscoreSpaces t) (specRaceSum cat) acc) := by
  simp only [raceFromCategory, ht]
  rw [if_neg hne, foldlM_sum _ 0 hc]
  simp [specRaceSum]

theorem raceFromCategory_isSome (acc : List (String × Int)) (cat : CategoryJ)
    (hok : catTitleOk cat = true) : (raceFromCategory acc cat).isSome = true := by
  unfold catTitleOk at hok
  cases ht : cat.title with
  | none => simp [raceFromCategory, ht]
  | some t =>
    rw [ht] at hok
    have hok2 : (if t = "" then true else catOk cat) = true := hok
    by_cases hte : t = ""
    · simp [raceFromCategory, ht, hte]
    · rw [if_neg hte] at hok2
      rw [raceFromCategory_ok acc cat t ht hte hok2]
      rfl

theorem foldlM_race_cats (cats : List CategoryJ) : ∀ acc,
    cats.all catTitleOk = true →
    (cats.foldlM raceFromCategory acc).isSome = true := by
  induction cats with
  | nil => intro acc _; rfl
  | cons c cs ih =>
    intro acc hall
    simp only [List.all_cons, Bool.and_eq_true] at hall
    obtain ⟨w, hw⟩ := Option.isSome_iff_exists.mp (raceFromCategory_isSome acc c hall.1)
    rw [List.foldlM_cons, hw]
    show (cs.foldlM raceFromCategory w).isSome = true
    exact ih w hall.2

theorem raceFromMeasure_isSome (acc : List (String × Int)) (m : MeasureJ)
    (hok : measureOk m = true) : (raceFromMeasure acc m).isSome = true := by
  unfold measureOk at hok
  unfold raceFromMeasure
  by_cases hti : m.title = some "Race (NIH/OMB)"
  · rw [if_pos hti] at hok ⊢
    cases hcl : m.classes with
    | none => rfl
    | some cls =>
      cases cls with
      | nil => rw [hcl] at hok; simp at hok
      | cons c rest =>
        rw [hcl] at hok
        exact foldlM_race_cats _ _ hok
  · rw [if_neg hti]
    rfl

theorem foldlM_race_measures (ms : List MeasureJ) : ∀ acc,
    ms.all measureOk = true →
    (ms.foldlM raceFromMeasure acc).isSome = true := by
  induction ms with
  | nil => intro acc _; rfl
  | cons m rest ih =>
    intro acc hall
    simp only [List.all_cons, Bool.and_eq_true] at hall
    obtain ⟨w, hw⟩ := Option.isSome_iff_exists.mp (raceFromMeasure_isSome acc m hall.1)
    rw [List.foldlM_cons, hw]
    show (rest.foldlM raceFromMeasure w).isSome = true
    exact ih w hall.2

/-- Counterexample to C7 as stated: a non-numeric measurement value is
not treated as zero — the Python int call raises, the extraction does not
return a details dictionary, and the fault propagates through the whole
processing stage. -/
theorem C7_counterexample :
    extract_study_details c7Study "United States" = none ∧
    process_raw_data [c7Study] = none := by decide

/-- Claim C7 (amended): each race count is the sum of the category's
measurement values with missing values treated as zero, stored under the
key Race_ plus the title with spaces replaced by underscores; the
extraction returns a details dictionary provided every present value is
numeric — a non-numeric value raises instead of defaulting to zero. -/
theorem C7_race_sums (study : StudyJ) (country : String)
    (acc : List (String × Int)) (cat : CategoryJ) (t : String)
    (hok : studyRaceOk study = true)
    (ht : cat.title = some t) (hne : t ≠ "") (hc : catOk cat = true) :
    (∃ d, extract_study_details study country = some d) ∧
    raceFromCategory acc cat =
      some (dictInsert ("Race_" ++ underscoreSpaces t) (specRaceSum cat) acc) := by
  have hrace : (studyRace study).isSome = true := by
    unfold studyRace
    unfold studyRaceOk at hok
    cases hrm : study.resultsMeasures with
    | none => rfl
    | some measures =>
      rw [hrm] at hok
      have hok2 : measures.all measureOk = true := hok
      exact foldlM_race_measures measures [] hok2
  constructor
  · unfold extract_study_details
    cases hp : study.protocolSection with
    | none => exact ⟨_, rfl⟩
    | some protocol =>
      obtain ⟨r, hr⟩ := Option.isSome_iff_exists.mp hrace
      rw [hr]
      exact ⟨_, rfl⟩
  · exact raceFromCategory_ok acc cat t ht hne hc

/-- Witness for C7 at a concrete study whose race values all convert. -/
theorem C7_witness :
    (∃ d, extract_study_details c7okStudy "United States" = some d) ∧
    raceFromCategory [] c7okCat =
      some (dictInsert ("Race_" ++ underscoreSpaces "Black or African American")
        (specRaceSum c7okCat) []) :=
  C7_race_sums c7okStudy "United States" [] c7okCat "Black or African American"
    (by decide) (by decide) (by decide) (by decide)

/-! ## Claim C1: the zero-flag drop of the processing stage -/

/-- Counterexample to C1 as stated: when every assembled row has flag sum
zero, the drop branch is skipped and the zero-flag rows survive in the
returned frame. -/
theorem C1_counterexample :
    (process_raw_data [c1Study]).map (List.map flagSum) = some [0] := by decide

/-- The zero-fill of race columns and coordinates does not change the
six skin-type flags of a row. -/
theorem flagSum_fillRow (ks : List String) (r : ARow) :
    flagSum (fillRow ks r) = flagSum r := rfl

/-- Claim C1 (amended): over the assembled rows of a run, when at least
one assembled row has a non-zero flag sum, process_raw_data returns
exactly the zero-filled assembled rows with non-zero flag sum — so every
returned row has at least one flag set; when every assembled row has
flag sum zero, the drop branch is skipped and process_raw_data returns
all the zero-filled assembled rows undropped, each with flag sum
zero. -/
theorem C1_flag_filter (studies : List StudyJ) (rs : List ARow) (keys : List String)
    (ha : assembleAll studies = some (rs, keys)) :
    ((∃ r ∈ rs, 1 ≤ flagSum r) →
      ∃ rows, process_raw_data studies = some rows ∧
        rows = (rs.map (fillRow (unionKeys rs keys))).filter
          (fun r => flagSum r != 0) ∧
        (∀ r ∈ rows, 1 ≤ flagSum r)) ∧
    ((∀ r ∈ rs, flagSum r = 0) →
      process_raw_data studies = some (rs.map (fillRow (unionKeys rs keys))) ∧
      ∀ r ∈ rs.map (fillRow (unionKeys rs keys)), flagSum r = 0) := by
  have hpr : process_raw_data studies =
      (if rs.isEmpty = true then some []
       else
        if (!((rs.map (fillRow (unionKeys rs keys))).filter
            fun r => flagSum r != 0).isEmpty) = true
        then some ((rs.map (fillRow (unionKeys rs keys))).filter
          fun r => flagSum r != 0)
        else some (rs.map (fillRow (unionKeys rs keys)))) := by
    unfold process_raw_data
    rw [ha]
  constructor
  · rintro ⟨r0, hr0mem, hr0⟩
    have hfmem : fillRow (unionKeys rs keys) r0 ∈
        rs.map (fillRow (unionKeys rs keys)) := List.mem_map_of_mem _ hr0mem
    have hpred : (flagSum (fillRow (unionKeys rs keys) r0) != 0) = true := by
      rw [flagSum_fillRow]
      simp only [bne_iff_ne, ne_eq]
      omega
    have hkmem : fillRow (unionKeys rs keys) r0 ∈
        (rs.map (fillRow (unionKeys rs keys))).filter (fun r => flagSum r != 0) :=
      List.mem_filter.mpr ⟨hfmem, hpred⟩
    have hne : rs.isEmpty = false := by
      cases rs with
      | nil => exact absurd hr0mem (List.not_mem_nil r0)
      | cons a l => rfl
    have hkne : ((rs.map (fillRow (unionKeys rs keys))).filter
        (fun r => flagSum r != 0)).isEmpty = false := by
      cases hc : (rs.map (fillRow (unionKeys rs keys))).filter
          (fun r => flagSum r != 0) with
      | nil => rw [hc] at hkmem; exact absurd hkmem (List.not_mem_nil _)
      | cons a l => rfl
    refine ⟨_, ?_, rfl, ?_⟩
    · rw [hpr, if_neg (by rw [hne]; decide), if_pos (by rw [hkne]; decide)]
    · intro r hr
      have h1 := (List.mem_filter.mp hr).2
      simp only [bne_iff_ne, ne_eq] at h1
      omega
  · intro hall
    have hallf : ∀ r ∈ rs.map (fillRow (unionKeys rs keys)), flagSum r = 0 := by
      intro r hr
      obtain ⟨r', hr', rfl⟩ := List.mem_map.mp hr
      rw [flagSum_fillRow]
      exact hall r' hr'
    have hkept : (rs.map (fillRow (unionKeys rs keys))).filter
        (fun r => flagSum r != 0) = [] := by
      apply List.filter_eq_nil.mpr
      intro r hr
      simp [hallf r hr]
    refine ⟨?_, hallf⟩
    by_cases hemp : rs.isEmpty = true
    · have hnil : rs = [] := by simpa [List.isEmpty_iff] using hemp
      subst hnil
      rw [hpr]
      rfl
    · rw [hpr, if_neg hemp, if_neg (by rw [hkept]; decide)]

/-- Witness for C1 at a concrete study with a proper range sentence. -/
theorem C1_witness :
    ((∃ r ∈ c1bAcc.1, 1 ≤ flagSum r) →
      ∃ rows, process_raw_data [c1bStudy] = some rows ∧
        rows = (c1bAcc.1.map (fillRow (unionKeys c1bAcc.1 c1bAcc.2))).filter
          (fun r => flagSum r != 0) ∧
        (∀ r ∈ rows, 1 ≤ flagSum r)) ∧
    ((∀ r ∈ c1bAcc.1, flagSum r = 0) →
      process_raw_data [c1bStudy] =
        some (c1bAcc.1.map (fillRow (unionKeys c1bAcc.1 c1bAcc.2))) ∧
      ∀ r ∈ c1bAcc.1.map (fillRow (unionKeys c1bAcc.1 c1bAcc.2)), flagSum r = 0) :=
  C1_flag_filter [c1bStudy] c1bAcc.1 c1bAcc.2 (by decide)

end FitzCTG
